import Mathlib

/-!
# The UCS mail database (`ucs/database.cpp`)

A shallow embedding of the mail part of `Database` in the universal chat
service: mailbox-key verification, the header and body packets, sending mail,
status changes, expiry and the friend and ignore lists; and of the table
selection of `DatabaseDumpService::Dump`
(`common/database/database_dump_service.cpp`).

Conventions of the embedding.

* A byte is a `Fin 256`.  A `std::string` is a list of bytes (`StdString`); a
  `char *` read as a C string is a `CStr`, the bytes in front of its NUL.
* C `int` values are embedded as `Int`, counts as `Nat`: ids, mailbox numbers, row counts and
  clock readings are taken inside the 32-bit range, where `%i` prints them as they are. Only
  `%08X` shows the width, it prints its argument modulo 2^32.
* A computation that can run into undefined behaviour (a write past the end of
  an array, a read through a null pointer) returns an `Option`; `none` is the
  undefined behaviour.
* `character_data` is reached through two lookups whose answers are left
  abstract; `mail` is a concrete table of records. The `INSERT` of `SendMail`
  reaches the store as the text that `StringFormat` makes, and what the store
  reads from that text is left abstract too; the examples read it as MySQL
  reads the literals of a `VALUES` list (`readInsert`).
-/

namespace UCS

/-! ## Bytes and strings -/

abbrev Byte := Fin 256

/-- A C string as a `char *` is read: the bytes in front of the terminating NUL. -/
structure CStr where
  bytes : List Byte
  nulFree : ∀ b ∈ bytes, b ≠ 0

instance : DecidableEq CStr := fun a b =>
  if h : a.bytes = b.bytes then isTrue (by cases a; cases b; simp_all)
  else isFalse (fun e => h (by rw [e]))

/-- A `std::string`: any bytes, NUL included. -/
abbrev StdString := List Byte

/-- Whether a byte is not the NUL. -/
def nonNul (b : Byte) : Bool := decide (b ≠ 0)

/-- The C string that `std::string::c_str()` hands to a C function: it ends at the first NUL. -/
def c_str (s : StdString) : CStr :=
  ⟨s.takeWhile nonNul, fun b hb => by
    have h : nonNul b = true := List.mem_takeWhile_imp hb
    exact of_decide_eq_true h⟩

/-- The bytes of an ASCII literal. -/
def ascii (s : String) : List Byte := s.toList.map (fun c => Fin.ofNat c.toNat)

/-- A string literal of the source, as a C string. -/
def lit (s : String) : CStr := c_str (ascii s)

/-- The function `strlen`. -/
def strlen (s : CStr) : Nat := s.bytes.length

/-- The function `strcmp`: zero on equal strings, else the difference at the first position where
they differ, the end of a string reading as NUL. -/
def strcmp : List Byte → List Byte → Int
  | [], [] => 0
  | [], b :: _ => 0 - (b.val : Int)
  | a :: _, [] => (a.val : Int)
  | a :: as, b :: bs => if a = b then strcmp as bs else (a.val : Int) - (b.val : Int)

/-- The function `toupper` in the C locale. -/
def toupper (b : Byte) : Byte := if 0x61 ≤ b.val ∧ b.val ≤ 0x7A then Fin.ofNat (b.val - 0x20) else b

/-- The function `tolower` in the C locale. -/
def tolower (b : Byte) : Byte := if 0x41 ≤ b.val ∧ b.val ≤ 0x5A then Fin.ofNat (b.val + 0x20) else b

/-! ## `printf` conversions -/

/-- The ASCII digit of `d % 10`. -/
def digit (d : Nat) : Byte := Fin.ofNat (48 + d % 10)

/-- Decimal digits of `n` in front of `acc`, most significant first. -/
def natDigitsAux : Nat → Nat → List Byte → List Byte
  | 0, _, acc => acc
  | fuel + 1, n, acc =>
    if n / 10 = 0 then digit n :: acc else natDigitsAux fuel (n / 10) (digit n :: acc)

/-- Decimal text of a natural number. -/
def natDigits (n : Nat) : List Byte := natDigitsAux (n + 1) n []

/-- The text `%i` prints. -/
def intString (i : Int) : List Byte :=
  match i with
  | Int.ofNat n => natDigits n
  | Int.negSucc n => 0x2D :: natDigits (n + 1)

/-- The uppercase hexadecimal digit of `d % 16`. -/
def hexDigit (d : Nat) : Byte :=
  if d % 16 < 10 then Fin.ofNat (48 + d % 16) else Fin.ofNat (55 + d % 16)

/-- The text `%08X` prints for an `int`: the argument is read as a 32-bit unsigned value, which
has at most eight hexadecimal digits, and is padded with zeros to eight. -/
def hex8 (i : Int) : List Byte :=
  [7, 6, 5, 4, 3, 2, 1, 0].map (fun k => hexDigit ((i % 2 ^ 32).toNat / 16 ^ k))

/-- The function `isspace` in the C locale. -/
def isspace (b : Byte) : Bool := b.val = 0x20 ∨ (0x09 ≤ b.val ∧ b.val ≤ 0x0D)

/-- The digits read by `atoi`, accumulated in `acc`. -/
def atoiDigits : List Byte → Nat → Nat
  | [], acc => acc
  | b :: bs, acc =>
    if 0x30 ≤ b.val ∧ b.val ≤ 0x39 then atoiDigits bs (acc * 10 + (b.val - 0x30)) else acc

/-- The function `atoi`: leading white space, an optional sign, then digits. Digits that spell a
number outside the range of `int`, for which C leaves `atoi` undefined, are read as they
stand. -/
def atoi (s : List Byte) : Int :=
  match s.dropWhile isspace with
  | [] => 0
  | b :: rest =>
    if b.val = 0x2D then 0 - (atoiDigits rest 0 : Int)
    else if b.val = 0x2B then (atoiDigits rest 0 : Int)
    else (atoiDigits (b :: rest) 0 : Int)

/-- A `sprintf` into a local `char` array of `cap` bytes: the text and its NUL are written from the
start of the array. Writing past the array is undefined behaviour. -/
def sprintfLocal (cap : Nat) (text : List Byte) : Option (List Byte) :=
  if text.length + 1 ≤ cap then some text else none

/-! ## The store -/

/-- A row of `mail`. The text columns hold the bytes the store was given. -/
structure MailRecord where
  msgid : Nat
  charid : Int
  timestamp : Int
  from_ : List Byte
  subject : List Byte
  body : List Byte
  to_ : List Byte
  status : Int
deriving DecidableEq

/-- The values of the seven columns that the `INSERT INTO mail` of `SendMail` names, for one row;
the `msgid` is given by the store. -/
structure MailValues where
  charid : Int
  timestamp : Int
  from_ : List Byte
  subject : List Byte
  body : List Byte
  to_ : List Byte
  status : Int
deriving DecidableEq

/-- The database as `Database` sees it through `QueryDatabase`.

* `selectMailKey name` answers
  ``SELECT `mailkey` FROM `character_data` WHERE `name`='%s' LIMIT 1``: `none` when
  `Success()` is false, else the rows, a `mailkey` being `none` when it is SQL NULL (the row
  then holds a null `char *`).
* `selectCharacterId name` answers
  ``SELECT `id` FROM `character_data` WHERE `name`='%s' LIMIT 1`` in the same way.
* `online` tells whether statements on `mail` succeed; while it is false each of them reports
  `!Success()` and changes nothing.
* `AUTO_INCREMENT` is the `msgid` the next inserted row gets.
* `insertInto query` is what the store makes of the text of an `INSERT INTO mail` statement:
  `none` when it does not accept the text, else the values of the rows the statement adds, in
  order. The store reads the text, not the arguments `SendMail` formatted it from. -/
structure Database where
  selectMailKey : CStr → Option (List (Option CStr))
  selectCharacterId : CStr → Option (List CStr)
  RemoveApostrophes : CStr → CStr
  online : Bool
  mail : List MailRecord
  AUTO_INCREMENT : Nat
  insertInto : List Byte → Option (List MailValues)

/-! ## `Database::VerifyMailKey` -/

/-- The text written to `combinedKey`. -/
def combinedKeyText (EnableMailKeyIPVerification : Bool) (IPAddress : Int) (MailKey : StdString) :
    List Byte :=
  if EnableMailKeyIPVerification = true then hex8 IPAddress ++ (c_str MailKey).bytes
  else (c_str MailKey).bytes

/-- The method `Database::VerifyMailKey`, with the rule `Chat:EnableMailKeyIPVerification` as a
parameter. `row` is `results.begin()`; `row[0]` is read without a look at `RowCount()`, so with
no row there is nothing to read, and a null `row[0]` goes to `strcmp` as it is. `combinedKey` is
a `char[17]`. -/
def VerifyMailKey (db : Database) (EnableMailKeyIPVerification : Bool)
    (characterName : StdString) (IPAddress : Int) (MailKey : StdString) : Option Bool :=
  match db.selectMailKey (c_str characterName) with
  | none => some false
  | some rows =>
    match sprintfLocal 17 (combinedKeyText EnableMailKeyIPVerification IPAddress MailKey) with
    | none => none
    | some combinedKey =>
      match rows.head? with
      | none => none
      | some none => none
      | some (some key) => some (decide (strcmp key.bytes combinedKey = 0))

/-! ## Packets and the `VARSTRUCT_ENCODE_*` steps -/

/-- The opcodes of the three mail packets. -/
inductive EmuOpcode where
  | OP_MailHeaderCount
  | OP_MailHeader
  | OP_MailSendBody
deriving DecidableEq

/-- An application packet: its opcode and its buffer `pBuffer`, whose length is the packet
size. -/
structure EQApplicationPacket where
  opcode : EmuOpcode
  pBuffer : List Byte
deriving DecidableEq

/-- Modelled from the spec: the constructor `EQApplicationPacket(op, size)` (class not under
src/) allocates a buffer of exactly `size` bytes, no padding and no length prefix. The bytes
start as zero here; the writes below overwrite every one of them, except behind a mail prefix
with a NUL inside. -/
def EQApplicationPacket.create (op : EmuOpcode) (size : Nat) : EQApplicationPacket :=
  ⟨op, List.replicate size 0⟩

/-- The packet under construction: its buffer and the offset in it of the pointer
`packetBuffer`. -/
structure WriteCursor where
  pBuffer : List Byte
  packetBuffer : Nat
deriving DecidableEq

/-- Store `bytes` at the pointer. A store that does not end inside the buffer is undefined
behaviour. -/
def WriteCursor.store (c : WriteCursor) (bytes : List Byte) : Option (List Byte) :=
  if c.packetBuffer + bytes.length ≤ c.pBuffer.length then
    some (c.pBuffer.take c.packetBuffer ++ bytes ++ c.pBuffer.drop (c.packetBuffer + bytes.length))
  else none

/-- The pair `int length = sprintf(Buffer, ...); Buffer += length + 1;` for the text the
`sprintf` prints: the text and its NUL are stored at the pointer, which moves behind the NUL. -/
def WriteCursor.sprintf (text : List Byte) (c : WriteCursor) : Option WriteCursor :=
  (c.store (text ++ [0])).map (fun b => ⟨b, c.packetBuffer + (text.length + 1)⟩)

/-- Modelled from the spec: the macro `VARSTRUCT_ENCODE_STRING(Buffer, String)` (not under src/)
writes the string and one terminating NUL at the pointer and moves the pointer behind the NUL. -/
def VARSTRUCT_ENCODE_STRING (s : CStr) (c : WriteCursor) : Option WriteCursor :=
  c.sprintf s.bytes

/-- Modelled from the spec: the macro `VARSTRUCT_ENCODE_INTSTRING(Buffer, Number)` (not under
src/) writes the number as decimal ASCII and one terminating NUL at the pointer and moves the
pointer behind the NUL. -/
def VARSTRUCT_ENCODE_INTSTRING (n : Int) (c : WriteCursor) : Option WriteCursor :=
  c.sprintf (intString n)

/-- Modelled from the spec: the macro `VARSTRUCT_ENCODE_TYPE(uint8, Buffer, Value)` (not under
src/) writes the one raw byte at the pointer and moves the pointer behind it. -/
def VARSTRUCT_ENCODE_TYPE_uint8 (v : Byte) (c : WriteCursor) : Option WriteCursor :=
  (c.store [v]).map (fun b => ⟨b, c.packetBuffer + 1⟩)

/-- The statement `packetBuffer--`. -/
def stepBack (c : WriteCursor) : Option WriteCursor :=
  some ⟨c.pBuffer, c.packetBuffer - 1⟩

/-- Start writing at the first byte of a packet. -/
def EQApplicationPacket.cursor (p : EQApplicationPacket) : Option WriteCursor :=
  some ⟨p.pBuffer, 0⟩

/-- The packet with the buffer as the writes left it. -/
def WriteCursor.packet (op : EmuOpcode) (c : WriteCursor) : EQApplicationPacket :=
  ⟨op, c.pBuffer⟩

/-! ## Clients and result rows -/

/-- What the mail methods read of a `Client`: `MailBoxName()` and `GetMailBoxNumber()`. -/
structure Client where
  MailBoxName : StdString
  GetMailBoxNumber : Int

/-- A row of the query of `SendHeaders`: `row[0]` to `row[4]`, the columns `msgid`, `timestamp`,
`from`, `subject` and `status` as text. -/
structure HeaderRow where
  msgid : CStr
  timestamp : CStr
  from_ : CStr
  subject : CStr
  status : CStr
deriving DecidableEq

/-- A row of the query of `SendBody`: `row[0]` to `row[2]`, the columns `msgid`, `body` and `to`
as text. -/
structure BodyRow where
  msgid : CStr
  body : CStr
  to_ : CStr
deriving DecidableEq

/-- The text columns of a `mail` row as the header query returns them. -/
def MailRecord.toHeaderRow (r : MailRecord) : HeaderRow :=
  { msgid := c_str (intString r.msgid)
    timestamp := c_str (intString r.timestamp)
    from_ := c_str r.from_
    subject := c_str r.subject
    status := c_str (intString r.status) }

/-- The text columns of a `mail` row as the body query returns them. -/
def MailRecord.toBodyRow (r : MailRecord) : BodyRow :=
  { msgid := c_str (intString r.msgid)
    body := c_str r.body
    to_ := c_str r.to_ }

/-- The query of `SendHeaders`: the rows of `mail` with the given `charid`, in table order. -/
def Database.selectHeaders (db : Database) (characterID : Int) : Option (List HeaderRow) :=
  if db.online = true then
    some ((db.mail.filter (fun r => decide (r.charid = characterID))).map MailRecord.toHeaderRow)
  else none

/-- The query of `SendBody`: the rows of `mail` with the given `charid` and `msgid`. -/
def Database.selectBody (db : Database) (characterID messageNumber : Int) :
    Option (List BodyRow) :=
  if db.online = true then
    some ((db.mail.filter (fun r =>
      decide (r.charid = characterID ∧ (r.msgid : Int) = messageNumber))).map MailRecord.toBodyRow)
  else none

/-! ## `Database::FindCharacter` -/

/-- The method `Database::FindCharacter`. -/
def FindCharacter (db : Database) (characterName : CStr) : Int :=
  match db.selectCharacterId (db.RemoveApostrophes characterName) with
  | none => -1
  | some rows =>
    match rows with
    | [row] => atoi row.bytes
    | _ => -1

/-! ## `Database::SendHeaders` -/

/-- The value of `unknownField2`. -/
def unknownField2 : Int := 25015275

/-- The value of `unknownField3`. -/
def unknownField3 : Int := 1

/-- The length computed for the header-count packet. -/
def headerCountPacketLength (mailBoxNumber : Int) (rowCount : Nat) : Nat :=
  ((intString mailBoxNumber).length + 1) + ((intString unknownField2).length + 1)
    + ((intString unknownField3).length + 1) + ((intString rowCount).length + 1)

/-- The header-count packet of `SendHeaders`. -/
def headerCountPacket (mailBoxNumber : Int) (rowCount : Nat) : Option EQApplicationPacket :=
  ((EQApplicationPacket.create .OP_MailHeaderCount
      (headerCountPacketLength mailBoxNumber rowCount)).cursor
    >>= VARSTRUCT_ENCODE_INTSTRING mailBoxNumber
    >>= VARSTRUCT_ENCODE_INTSTRING unknownField2
    >>= VARSTRUCT_ENCODE_INTSTRING unknownField3
    >>= VARSTRUCT_ENCODE_INTSTRING rowCount).map (WriteCursor.packet .OP_MailHeaderCount)

/-- The length computed for the header packet of one row. -/
def headerPacketLength (mailBoxNumber : Int) (MailPrefix : StdString) (rowIndex : Nat)
    (row : HeaderRow) : Nat :=
  ((intString mailBoxNumber).length + 1) + ((intString unknownField2).length + 1)
    + ((intString rowIndex).length + 1)
    + (strlen row.msgid + 1) + (strlen row.timestamp + 1) + (strlen row.status + 1)
    + (MailPrefix.length + strlen row.from_ + 1) + (strlen row.subject + 1)

/-- The header packet of one row: the body of the loop of `SendHeaders`. -/
def headerPacket (mailBoxNumber : Int) (MailPrefix : StdString) (rowIndex : Nat)
    (row : HeaderRow) : Option EQApplicationPacket :=
  ((EQApplicationPacket.create .OP_MailHeader
      (headerPacketLength mailBoxNumber MailPrefix rowIndex row)).cursor
    >>= VARSTRUCT_ENCODE_INTSTRING mailBoxNumber
    >>= VARSTRUCT_ENCODE_INTSTRING unknownField2
    >>= VARSTRUCT_ENCODE_INTSTRING rowIndex
    >>= VARSTRUCT_ENCODE_STRING row.msgid
    >>= VARSTRUCT_ENCODE_STRING row.timestamp
    >>= VARSTRUCT_ENCODE_STRING row.status
    >>= VARSTRUCT_ENCODE_STRING (c_str MailPrefix)
    >>= stepBack
    >>= VARSTRUCT_ENCODE_STRING row.from_
    >>= VARSTRUCT_ENCODE_STRING row.subject).map (WriteCursor.packet .OP_MailHeader)

/-- The loop of `SendHeaders` from `rowIndex` on: one header packet for each row. -/
def headerPackets (mailBoxNumber : Int) (MailPrefix : StdString) :
    Nat → List HeaderRow → Option (List EQApplicationPacket)
  | _, [] => some []
  | rowIndex, row :: rows =>
    match headerPacket mailBoxNumber MailPrefix rowIndex row with
    | none => none
    | some p => (headerPackets mailBoxNumber MailPrefix (rowIndex + 1) rows).map (fun ps => p :: ps)

/-- The method `Database::SendHeaders`, with `GetMailPrefix()` as a parameter: the packets given
to `client->QueuePacket`, in order. -/
def SendHeaders (db : Database) (MailPrefix : StdString) (client : Client) :
    Option (List EQApplicationPacket) :=
  let characterID := FindCharacter db (c_str client.MailBoxName)
  if characterID ≤ 0 then some []
  else
    match db.selectHeaders characterID with
    | none => some []
    | some rows =>
      match headerCountPacket client.GetMailBoxNumber rows.length with
      | none => none
      | some count =>
        (headerPackets client.GetMailBoxNumber MailPrefix 0 rows).map (fun ps => count :: ps)

/-! ## `Database::SendBody` -/

/-- The body packet of `SendBody` for the one row found. -/
def bodyPacket (mailBoxNumber : Int) (row : BodyRow) : Option EQApplicationPacket :=
  ((EQApplicationPacket.create .OP_MailSendBody
      (12 + strlen row.msgid + strlen row.body + strlen row.to_)).cursor
    >>= VARSTRUCT_ENCODE_INTSTRING mailBoxNumber
    >>= VARSTRUCT_ENCODE_STRING row.msgid
    >>= VARSTRUCT_ENCODE_STRING row.body
    >>= VARSTRUCT_ENCODE_STRING (lit "1")
    >>= VARSTRUCT_ENCODE_TYPE_uint8 0
    >>= VARSTRUCT_ENCODE_TYPE_uint8 0x0a
    >>= VARSTRUCT_ENCODE_STRING (lit "TO:")
    >>= stepBack
    >>= VARSTRUCT_ENCODE_STRING row.to_
    >>= stepBack
    >>= VARSTRUCT_ENCODE_TYPE_uint8 0x0a).map (WriteCursor.packet .OP_MailSendBody)

/-- The method `Database::SendBody`: the packets given to `client->QueuePacket`. -/
def SendBody (db : Database) (client : Client) (messageNumber : Int) :
    Option (List EQApplicationPacket) :=
  let characterID := FindCharacter db (c_str client.MailBoxName)
  if characterID ≤ 0 then some []
  else
    match db.selectBody characterID messageNumber with
    | none => some []
    | some rows =>
      match rows with
      | [row] => (bodyPacket client.GetMailBoxNumber row).map (fun p => [p])
      | _ => some []

/-! ## `Database::SendMail` -/

/-- The name `SendMail` looks up: the part of `recipient` behind its last period, the first
byte through `toupper`, the others through `tolower`. -/
def recipientCharacterName (recipient : StdString) : StdString :=
  let characterName :=
    if recipient.contains 0x2E then (recipient.reverse.takeWhile (fun b => b ≠ 0x2E)).reverse
    else recipient
  match characterName with
  | [] => []
  | b :: bs => toupper b :: bs.map tolower

/-- What `Client::SendNotification` is called with, and for which client. -/
structure Notification where
  client : StdString
  mailBoxNumber : Int
  subject : StdString
  sender : StdString
  messageID : Nat
deriving DecidableEq

/-- The state `SendMail` works on: the database, the clients known to `g_Clientlist` (for a
character name, the mailbox name of the client that has it online and the mailbox number it has
there), the notifications sent so far, and the counter `MailMessagesSent`, a `uint32`. -/
structure Server where
  db : Database
  IsCharacterOnline : StdString → Option (StdString × Int)
  notifications : List Notification
  MailMessagesSent : Nat

/-- Modelled from the spec: the helper `DoEscapeString` (not under src/; the specification only
says that text is escaped before use), taken as the `mysql_real_escape_string` it stands for: a
backslash goes in front of NUL (then written as the digit 0), line feed (written n), carriage
return (r), Control-Z (Z), backslash, apostrophe and double quote. -/
def DoEscapeString : List Byte → List Byte
  | [] => []
  | b :: bs =>
    (if b = 0x00 then [0x5C, 0x30]
     else if b = 0x0A then [0x5C, 0x6E]
     else if b = 0x0D then [0x5C, 0x72]
     else if b = 0x1A then [0x5C, 0x5A]
     else if b = 0x5C ∨ b = 0x27 ∨ b = 0x22 then [0x5C, b]
     else [b]) ++ DoEscapeString bs

/-- The text `StringFormat` makes of the `INSERT INTO mail` of `SendMail`: the two numbers by
`%i`, the four texts by `%s` between apostrophes, as they are, and the status 1. -/
def insertMailQuery (characterID now : Int) (from_ escSubject escBody recipientsString : CStr) :
    List Byte :=
  ascii "INSERT INTO `mail` (`charid`, `timestamp`, `from`, `subject`, `body`, `to`, `status`) VALUES ('"
    ++ intString characterID ++ ascii "', " ++ intString now ++ ascii ", '" ++ from_.bytes
    ++ ascii "', '" ++ escSubject.bytes ++ ascii "', '" ++ escBody.bytes ++ ascii "', '"
    ++ recipientsString.bytes ++ ascii "', " ++ intString 1 ++ ascii ")"

/-- The rows of one `INSERT` as records, the first with the `msgid` given, the others with the
ones that follow. -/
def MailValues.toRecords : Nat → List MailValues → List MailRecord
  | _, [] => []
  | msgid, v :: vs =>
    ⟨msgid, v.charid, v.timestamp, v.from_, v.subject, v.body, v.to_, v.status⟩
      :: MailValues.toRecords (msgid + 1) vs

/-- The `INSERT INTO mail` of `SendMail`: subject and body are escaped with `DoEscapeString`,
`from` and `to` go into the text unescaped, from their `c_str()`. What the statement adds is
what the store reads from the text. The new rows get the next `msgid`s; `LastInsertedID()` is
the first of them, 0 when no row was added. -/
def Database.insertMail (db : Database) (characterID now : Int)
    (from_ subject body recipientsString : StdString) : Option (Database × Nat) :=
  if db.online = true then
    match db.insertInto (insertMailQuery characterID now (c_str from_)
        (c_str (DoEscapeString subject)) (c_str (DoEscapeString body))
        (c_str recipientsString)) with
    | some rows =>
      some ({ db with
              mail := db.mail ++ MailValues.toRecords db.AUTO_INCREMENT rows
              AUTO_INCREMENT := db.AUTO_INCREMENT + rows.length },
            if rows = [] then 0 else db.AUTO_INCREMENT)
    | none => none
  else none

/-- The method `Database::SendMail`, with `time(nullptr)` and `GetMailPrefix()` as parameters:
the returned flag and the state afterwards. -/
def SendMail (s : Server) (now : Int) (MailPrefix : StdString)
    (recipient from_ subject body recipientsString : StdString) : Bool × Server :=
  let characterName := recipientCharacterName recipient
  let characterID := FindCharacter s.db (c_str characterName)
  if characterID ≤ 0 then (false, s)
  else
    match s.db.insertMail characterID now from_ subject body recipientsString with
    | none => (false, s)
    | some (db, LastInsertedID) =>
      let notifications :=
        match s.IsCharacterOnline characterName with
        | some (client, mailBoxNumber) =>
          s.notifications ++ [{ client := client, mailBoxNumber := mailBoxNumber,
                                subject := subject, sender := MailPrefix ++ from_,
                                messageID := LastInsertedID }]
        | none => s.notifications
      (true, { s with db := db, notifications := notifications,
                      MailMessagesSent := (s.MailMessagesSent + 1) % 2 ^ 32 })

/-! ## `Database::SetMessageStatus` -/

/-- A `DELETE FROM mail WHERE ...`: the rows the condition holds for leave the table. -/
def Database.deleteMail (db : Database) (cond : MailRecord → Bool) : Database :=
  if db.online = true then { db with mail := db.mail.filter (fun r => !cond r) } else db

/-- The statement ``UPDATE `mail` SET `status` = %i WHERE `msgid`=%i``. -/
def Database.updateStatus (db : Database) (status messageNumber : Int) : Database :=
  if db.online = true then
    { db with mail := db.mail.map (fun r =>
        if (r.msgid : Int) = messageNumber then { r with status := status } else r) }
  else db

/-- The method `Database::SetMessageStatus`. -/
def SetMessageStatus (db : Database) (messageNumber status : Int) : Database :=
  if status = 0 then db.deleteMail (fun r => decide ((r.msgid : Int) = messageNumber))
  else db.updateStatus status messageNumber

/-! ## `Database::ExpireMail` -/

/-- The rules `Mail:ExpireTrash`, `Mail:ExpireRead` and `Mail:ExpireUnread`. -/
structure MailRules where
  ExpireTrash : Int
  ExpireRead : Int
  ExpireUnread : Int

/-- The method `Database::ExpireMail`, with the rules as a parameter; `t1`, `t2` and `t3` are what
`time(nullptr)` returns in the three statements. The `SELECT COUNT(*)` in front only feeds the
log, but when it fails nothing else is done. -/
def ExpireMail (db : Database) (rules : MailRules) (t1 t2 t3 : Int) : Database :=
  if db.online = true then
    let db1 :=
      if rules.ExpireTrash ≥ 0 then
        db.deleteMail (fun r => decide (r.status = 4 ∧ r.timestamp < t1 - rules.ExpireTrash))
      else db
    let db2 :=
      if rules.ExpireRead ≥ 0 then
        db1.deleteMail (fun r => decide (r.status = 3 ∧ r.timestamp < t2 - rules.ExpireRead))
      else db1
    if rules.ExpireUnread ≥ 0 then
      db2.deleteMail (fun r => decide (r.status = 1 ∧ r.timestamp < t3 - rules.ExpireUnread))
    else db2
  else db

/-! ## The wire format of the specification -/

/-- Modelled from the spec: the encoder of section 4.1 of the specification (the repository has
no such function, it writes each packet by hand): every field followed by a single NUL, in
order. -/
def WireEncoder.encode : List (List Byte) → List Byte
  | [] => []
  | f :: fs => f ++ 0 :: WireEncoder.encode fs

/-- Modelled from the spec: the decoder of section 4.1 of the specification (the repository has
no decoder): the buffer is split on NUL boundaries into the known number of fields, and nothing
may be left over. -/
def WireEncoder.decode : Nat → List Byte → Option (List (List Byte))
  | 0, bytes => if bytes = [] then some [] else none
  | count + 1, bytes =>
    match bytes.dropWhile nonNul with
    | [] => none
    | _ :: rest => (WireEncoder.decode count rest).map (fun fs => bytes.takeWhile nonNul :: fs)

/-- The bytes `SendHeaders` writes for the row `row` at index `rowIndex`: eight fields, each with
its NUL, the prefix and the sender sharing one, and then what the computed length leaves over. -/
def headerBytes (mailBoxNumber : Int) (MailPrefix : StdString) (rowIndex : Nat)
    (row : HeaderRow) : List Byte :=
  WireEncoder.encode [intString mailBoxNumber, intString unknownField2, intString rowIndex,
      row.msgid.bytes, row.timestamp.bytes, row.status.bytes,
      (c_str MailPrefix).bytes ++ row.from_.bytes, row.subject.bytes]
    ++ List.replicate (MailPrefix.length - (c_str MailPrefix).bytes.length) 0

/-! ## Sequences of mail operations -/

/-- One call of the three methods that change `mail`, with its arguments and the clock readings
it takes. -/
inductive MailOp where
  | sendMail (now : Int) (MailPrefix recipient from_ subject body recipientsString : StdString)
  | setMessageStatus (messageNumber status : Int)
  | expireMail (rules : MailRules) (t1 t2 t3 : Int)

/-- The state after one call. -/
def MailOp.apply (s : Server) : MailOp → Server
  | .sendMail now pre recipient from_ subject body recipientsString =>
    (SendMail s now pre recipient from_ subject body recipientsString).2
  | .setMessageStatus messageNumber status =>
    { s with db := SetMessageStatus s.db messageNumber status }
  | .expireMail rules t1 t2 t3 => { s with db := ExpireMail s.db rules t1 t2 t3 }

/-- A row of the query of `GetFriendsAndIgnore`: `row[0]` and `row[1]`, the columns `type` and
`name` as text. -/
structure FriendRow where
  type_ : CStr
  name : CStr
deriving DecidableEq

/-- The loop of `GetFriendsAndIgnore` over the rows, from the two vectors as they are. -/
def friendsAndIgnoreLoop :
    List FriendRow → List StdString → List StdString → List StdString × List StdString
  | [], friends, ignorees => (friends, ignorees)
  | row :: rows, friends, ignorees =>
    if atoi row.type_.bytes = 0 then
      friendsAndIgnoreLoop rows friends (ignorees ++ [row.name.bytes])
    else friendsAndIgnoreLoop rows (friends ++ [row.name.bytes]) ignorees

/-- The method `Database::GetFriendsAndIgnore`: the vectors `friends` and `ignorees` after the
call. `selectFriends charID` answers the query on `friends` for that `charid`, `none` when
`Success()` is false. -/
def GetFriendsAndIgnore (selectFriends : Int → Option (List FriendRow)) (charID : Int)
    (friends ignorees : List StdString) : List StdString × List StdString :=
  match selectFriends charID with
  | none => (friends, ignorees)
  | some rows => friendsAndIgnoreLoop rows friends ignorees

/-- A row of the table `friends`: the columns `charid`, `type` and `name`. -/
structure FriendEntry where
  charid : Int
  type_ : Int
  name : List Byte
deriving DecidableEq

/-- The columns `type` and `name` of a `friends` row as the query returns them, as text. -/
def FriendEntry.toFriendRow (e : FriendEntry) : FriendRow :=
  { type_ := c_str (intString e.type_)
    name := c_str e.name }

/-! ## The write pointer at the end of a packet of `SendHeaders` -/

/-- The writes of the header-count packet, up to the last: the buffer and where the pointer
`packetBuffer` stands then. -/
def headerCountPacketCursor (mailBoxNumber : Int) (rowCount : Nat) : Option WriteCursor :=
  (EQApplicationPacket.create .OP_MailHeaderCount
      (headerCountPacketLength mailBoxNumber rowCount)).cursor
    >>= VARSTRUCT_ENCODE_INTSTRING mailBoxNumber
    >>= VARSTRUCT_ENCODE_INTSTRING unknownField2
    >>= VARSTRUCT_ENCODE_INTSTRING unknownField3
    >>= VARSTRUCT_ENCODE_INTSTRING rowCount

/-- The writes of the header packet of one row, up to the last: the buffer and where the pointer
`packetBuffer` stands then. -/
def headerPacketCursor (mailBoxNumber : Int) (MailPrefix : StdString) (rowIndex : Nat)
    (row : HeaderRow) : Option WriteCursor :=
  (EQApplicationPacket.create .OP_MailHeader
      (headerPacketLength mailBoxNumber MailPrefix rowIndex row)).cursor
    >>= VARSTRUCT_ENCODE_INTSTRING mailBoxNumber
    >>= VARSTRUCT_ENCODE_INTSTRING unknownField2
    >>= VARSTRUCT_ENCODE_INTSTRING rowIndex
    >>= VARSTRUCT_ENCODE_STRING row.msgid
    >>= VARSTRUCT_ENCODE_STRING row.timestamp
    >>= VARSTRUCT_ENCODE_STRING row.status
    >>= VARSTRUCT_ENCODE_STRING (c_str MailPrefix)
    >>= stepBack
    >>= VARSTRUCT_ENCODE_STRING row.from_
    >>= VARSTRUCT_ENCODE_STRING row.subject

/-! ## `DatabaseDumpService` (`common/database/database_dump_service.cpp`) -/

/-- The table lists of `DatabaseSchema` (class not under src/), as parameters. -/
structure DatabaseSchema where
  GetPlayerTables : List StdString
  GetLoginTables : List StdString
  GetServerTables : List StdString
  GetStateTables : List StdString
  GetVersionTables : List StdString
  GetContentTables : List StdString

/-- Modelled from the spec: the helper `trim` of `common/string_util` (not under src/), which the
specification does not describe; it is taken as what its name and its use here say, the string
without the white space at its two ends. -/
def trim (s : StdString) : StdString :=
  ((s.dropWhile isspace).reverse.dropWhile isspace).reverse

/-- The loop `for (table : tables) tables_list += table + " "`, from `tables_list` on. -/
def appendTables (tables_list : StdString) (tables : List StdString) : StdString :=
  tables.foldl (fun acc table => acc ++ (table ++ ascii " ")) tables_list

/-- The method `DatabaseDumpService::GetPlayerTablesList`. -/
def GetPlayerTablesList (schema : DatabaseSchema) : StdString :=
  trim (appendTables [] schema.GetPlayerTables)

/-- The method `DatabaseDumpService::GetLoginTableList`. -/
def GetLoginTableList (schema : DatabaseSchema) : StdString :=
  trim (appendTables [] schema.GetLoginTables)

/-- The method `DatabaseDumpService::GetSystemTablesList`. -/
def GetSystemTablesList (schema : DatabaseSchema) : StdString :=
  trim (appendTables (appendTables (appendTables [] schema.GetServerTables)
    schema.GetStateTables) schema.GetVersionTables)

/-- The method `DatabaseDumpService::GetContentTablesList`. -/
def GetContentTablesList (schema : DatabaseSchema) : StdString :=
  trim (appendTables [] schema.GetContentTables)

/-- The flags of a `DatabaseDumpService` that choose the tables. -/
structure DatabaseDumpService where
  dump_all_tables : Bool
  dump_player_tables : Bool
  dump_system_tables : Bool
  dump_content_tables : Bool
  dump_login_server_tables : Bool

/-- The strings `tables_to_dump` and `dump_descriptor` as `DatabaseDumpService::Dump` has them
when it formats the `mysqldump` command. -/
def Dump (schema : DatabaseSchema) (service : DatabaseDumpService) : StdString × StdString :=
  if service.dump_all_tables = true then ([], [])
  else
    let step1 : StdString × StdString :=
      if service.dump_player_tables = true then
        (GetPlayerTablesList schema, ascii "-player")
      else ([], [])
    let step2 : StdString × StdString :=
      if service.dump_system_tables = true then
        (step1.1 ++ GetSystemTablesList schema, step1.2 ++ ascii "-system")
      else step1
    let step3 : StdString × StdString :=
      if service.dump_content_tables = true then
        (step2.1 ++ GetContentTablesList schema, step2.2 ++ ascii "-content")
      else step2
    if service.dump_login_server_tables = true then
      (step3.1 ++ GetLoginTableList schema, step3.2 ++ ascii "-login")
    else step3

/-- The tokens of a command-line argument list: the pieces between its spaces, empty pieces
left out. -/
def splitOnSpaces : List Byte → List Byte → List (List Byte)
  | cur, [] => if cur = [] then [] else [cur]
  | cur, b :: bs =>
    if b = 0x20 then (if cur = [] then splitOnSpaces [] bs else cur :: splitOnSpaces [] bs)
    else splitOnSpaces (cur ++ [b]) bs

/-- A table name as `mysqldump` takes it: not empty and without white space. -/
def IsTableName (t : StdString) : Prop := t ≠ [] ∧ ∀ b ∈ t, isspace b = false

instance (t : StdString) : Decidable (IsTableName t) := by
  unfold IsTableName
  infer_instance

/-- The names with one space between two of them. -/
def spaced : List StdString → StdString
  | [] => []
  | [t] => t
  | t :: u :: ts => t ++ 0x20 :: spaced (u :: ts)

/-- The cursor behind the written bytes `w`, with `n` bytes of the buffer, still zero, ahead. -/
def written (w : List Byte) (n : Nat) : WriteCursor := ⟨w ++ List.replicate n 0, w.length⟩

/-! ## A store for the examples

The examples need a store that reads the text of an `INSERT INTO mail` statement. `readInsert`
reads it the way MySQL reads the literals of a `VALUES` list: a text literal stands between
apostrophes, a backslash in it escapes the next byte and two apostrophes stand for one; a number
is a run of digits with an optional minus sign; `#` starts a comment that runs to the end of the
line. A statement with anything else in its `VALUES` list is refused. -/

/-- The tokens of a `VALUES` list. -/
inductive SqlToken where
  | lparen
  | rparen
  | comma
  | text (bytes : List Byte)
  | number (value : Int)
deriving DecidableEq

/-- Where the reader stands: between tokens, in a text literal (with the bytes read so far),
behind a backslash in one, behind an apostrophe in one (its end, or the first of two), in a
number, or in a comment. -/
inductive LexMode where
  | between
  | inText (acc : List Byte)
  | afterBackslash (acc : List Byte)
  | afterQuote (acc : List Byte)
  | inNumber (acc : List Byte)
  | inComment
deriving DecidableEq

/-- The bytes that a backslash and the byte `b` stand for in a text literal. -/
def unescape (b : Byte) : List Byte :=
  if b = 0x30 then [0x00]
  else if b = 0x62 then [0x08]
  else if b = 0x6E then [0x0A]
  else if b = 0x72 then [0x0D]
  else if b = 0x74 then [0x09]
  else if b = 0x5A then [0x1A]
  else if b = 0x25 ∨ b = 0x5F then [0x5C, b]
  else [b]

/-- The function `isdigit`. -/
def isdigit (b : Byte) : Bool := 0x30 ≤ b.val ∧ b.val ≤ 0x39

/-- The token of a number literal; a minus sign alone is none. -/
def numberToken (acc : List Byte) : Option SqlToken :=
  if acc = [0x2D] then none else some (.number (atoi acc))

/-- One byte read between tokens: the tokens it completes and where the reader stands then. -/
def stepBetween (b : Byte) : Option (List SqlToken × LexMode) :=
  if b = 0x28 then some ([.lparen], .between)
  else if b = 0x29 then some ([.rparen], .between)
  else if b = 0x2C then some ([.comma], .between)
  else if b = 0x27 then some ([], .inText [])
  else if b = 0x23 then some ([], .inComment)
  else if isspace b = true then some ([], .between)
  else if isdigit b = true ∨ b = 0x2D then some ([], .inNumber [b])
  else none

/-- One byte read: the tokens it completes and where the reader stands then. -/
def LexMode.step : LexMode → Byte → Option (List SqlToken × LexMode)
  | .between, b => stepBetween b
  | .inText acc, b =>
    if b = 0x27 then some ([], .afterQuote acc)
    else if b = 0x5C then some ([], .afterBackslash acc)
    else some ([], .inText (acc ++ [b]))
  | .afterBackslash acc, b => some ([], .inText (acc ++ unescape b))
  | .afterQuote acc, b =>
    if b = 0x27 then some ([], .inText (acc ++ [0x27]))
    else (stepBetween b).map (fun r => (SqlToken.text acc :: r.1, r.2))
  | .inNumber acc, b =>
    if isdigit b = true then some ([], .inNumber (acc ++ [b]))
    else
      match numberToken acc, stepBetween b with
      | some t, some r => some (t :: r.1, r.2)
      | _, _ => none
  | .inComment, b => if b = 0x0A then some ([], .between) else some ([], .inComment)

/-- The end of the text: the token it completes; a text literal must be closed. -/
def LexMode.finish : LexMode → Option (List SqlToken)
  | .between => some []
  | .inComment => some []
  | .afterQuote acc => some [.text acc]
  | .inNumber acc => (numberToken acc).map (fun t => [t])
  | .inText _ => none
  | .afterBackslash _ => none

/-- The tokens of a text. -/
def lex : LexMode → List Byte → Option (List SqlToken)
  | m, [] => m.finish
  | m, b :: bs =>
    match m.step b with
    | none => none
    | some r => (lex r.2 bs).map (fun ts => r.1 ++ ts)

/-- Where the reader of the `VALUES` list stands: in front of a tuple, in a tuple in front of a
value or behind one (with the values read so far), or behind a tuple. -/
inductive TupleState where
  | expectTuple
  | expectValue (vals : List SqlToken)
  | afterValue (vals : List SqlToken)
  | afterTuple

/-- The tuples of a `VALUES` list: one or more, with commas between them, each a list of
literals in parentheses with commas between them. -/
def tuples : TupleState → List SqlToken → Option (List (List SqlToken))
  | .afterTuple, [] => some []
  | .expectTuple, .lparen :: ts => tuples (.expectValue []) ts
  | .expectValue vals, .text t :: ts => tuples (.afterValue (vals ++ [.text t])) ts
  | .expectValue vals, .number i :: ts => tuples (.afterValue (vals ++ [.number i])) ts
  | .afterValue vals, .comma :: ts => tuples (.expectValue vals) ts
  | .afterValue vals, .rparen :: ts => (tuples .afterTuple ts).map (fun r => vals :: r)
  | .afterTuple, .comma :: ts => tuples .expectTuple ts
  | _, _ => none

/-- A literal as the value of a number column: a text is read as `atoi` reads it. -/
def SqlToken.toInt : SqlToken → Option Int
  | .number i => some i
  | .text t => some (atoi t)
  | _ => none

/-- A literal as the value of a text column. -/
def SqlToken.toText : SqlToken → Option (List Byte)
  | .number i => some (intString i)
  | .text t => some t
  | _ => none

/-- A tuple of seven literals as the values of `charid`, `timestamp`, `from`, `subject`, `body`,
`to` and `status`. -/
def MailValues.ofTuple : List SqlToken → Option MailValues
  | [c, t, f, s, b, to_, st] =>
    match c.toInt, t.toInt, f.toText, s.toText, b.toText, to_.toText, st.toInt with
    | some c, some t, some f, some s, some b, some to_, some st => some ⟨c, t, f, s, b, to_, st⟩
    | _, _, _, _, _, _, _ => none
  | _ => none

/-- The rows of the tuples; every tuple must have the seven values. -/
def allRows : List (List SqlToken) → Option (List MailValues)
  | [] => some []
  | t :: ts =>
    match MailValues.ofTuple t, allRows ts with
    | some v, some vs => some (v :: vs)
    | _, _ => none

/-- What is left of a text behind the given beginning, none when it begins otherwise. -/
def dropPrefix : List Byte → List Byte → Option (List Byte)
  | [], s => some s
  | _ :: _, [] => none
  | p :: ps, b :: bs => if p = b then dropPrefix ps bs else none

/-- The rows that a statement
``INSERT INTO `mail` (`charid`, `timestamp`, `from`, `subject`, `body`, `to`, `status`) VALUES``
with a list of tuples of literals adds; none for any other text. -/
def readInsert (query : List Byte) : Option (List MailValues) :=
  match dropPrefix (ascii "INSERT INTO `mail` (`charid`, `timestamp`, `from`, `subject`, `body`, `to`, `status`) VALUES ") query with
  | none => none
  | some rest =>
    match lex .between rest with
    | none => none
    | some ts =>
      match tuples .expectTuple ts with
      | none => none
      | some rows => allRows rows

/-- A database whose two `character_data` lookups answer `keys` and `ids` for every name, with
the `mail` table `mail`; it reads an `INSERT INTO mail` as `readInsert` does. -/
def fixedDb (keys : Option (List (Option CStr))) (ids : Option (List CStr))
    (mail : List MailRecord) : Database :=
  { selectMailKey := fun _ => keys
    selectCharacterId := fun _ => ids
    RemoveApostrophes := fun n => n
    online := true
    mail := mail
    AUTO_INCREMENT := mail.length + 1
    insertInto := readInsert }

/-- A letter for the character with id 42: message 7, unread, from Alice. -/
def bobsMail : MailRecord :=
  { msgid := 7, charid := 42, timestamp := 1000, from_ := ascii "Alice", subject := ascii "Hi",
    body := ascii "hello", to_ := ascii "Bob", status := 1 }

/-- A database in which every name is the character with id 42, whose stored key is
"0A0B0C0D12345678" and whose mail is `bobsMail`. -/
def bobDb : Database :=
  fixedDb (some [some (lit "0A0B0C0D12345678")]) (some [lit "42"]) [bobsMail]

/-- A server where "Bob" is the character with id 42 and has no mail yet, nobody is online, and
no mail was sent so far. -/
def bobServer : Server :=
  { db := fixedDb none (some [lit "42"]) []
    IsCharacterOnline := fun _ => none
    notifications := []
    MailMessagesSent := 0 }

/-- A letter for the character with id 43: message 8, unread, from Dave. -/
def erinsMail : MailRecord :=
  { msgid := 8, charid := 43, timestamp := 1200, from_ := ascii "Dave", subject := ascii "Yo",
    body := ascii "hey", to_ := ascii "Erin", status := 1 }

/-- A second letter for the character with id 42: message 9, read, from Carol. -/
def bobsSecondMail : MailRecord :=
  { msgid := 9, charid := 42, timestamp := 1500, from_ := ascii "Carol",
    subject := ascii "Re: Hi", body := ascii "ok", to_ := ascii "Bob", status := 3 }

/-- A database in which every name is the character with id 42, with three letters: message 7
and message 9 for that character and, between them, message 8 for the character with id 43. -/
def threeLetterDb : Database :=
  fixedDb (some [some (lit "0A0B0C0D12345678")]) (some [lit "42"])
    [bobsMail, erinsMail, bobsSecondMail]

/-- A small schema for examples: two player tables, two server tables, a state table, a version
table, a content table and a login table. -/
def exampleSchema : DatabaseSchema :=
  { GetPlayerTables := [ascii "account", ascii "character_data"]
    GetLoginTables := [ascii "login_accounts"]
    GetServerTables := [ascii "banned_ips", ascii "bugs"]
    GetStateTables := [ascii "adventure_members"]
    GetVersionTables := [ascii "db_version"]
    GetContentTables := [ascii "zone"] }

/-! ## Theorems -/

theorem c_str_bytes_of_nulFree (s : List Byte) (h : ∀ b ∈ s, b ≠ 0) : (c_str s).bytes = s := by
  show s.takeWhile nonNul = s
  rw [List.takeWhile_eq_self_iff]
  intro b hb
  simpa [nonNul] using h b hb

theorem nulFree_of_all (s : List Byte) (h : s.all nonNul = true) : ∀ b ∈ s, b ≠ 0 := by
  intro b hb
  have := List.all_eq_true.mp h b hb
  simpa [nonNul] using this

theorem strcmp_eq_zero_iff (a b : List Byte) (ha : ∀ x ∈ a, x ≠ 0) (hb : ∀ x ∈ b, x ≠ 0) :
    strcmp a b = 0 ↔ a = b := by
  induction a generalizing b with
  | nil =>
    cases b with
    | nil => simp [strcmp]
    | cons y ys =>
      have hy : y ≠ 0 := hb y (by simp)
      have : (y.val : Int) ≠ 0 := by
        intro e
        apply hy
        apply Fin.ext
        have : y.val = 0 := by exact_mod_cast e
        simpa using this
      simp [strcmp, this]
  | cons x xs ih =>
    cases b with
    | nil =>
      have hx : x ≠ 0 := ha x (by simp)
      have : (x.val : Int) ≠ 0 := by
        intro e
        apply hx
        apply Fin.ext
        have : x.val = 0 := by exact_mod_cast e
        simpa using this
      simp [strcmp, this]
    | cons y ys =>
      by_cases hxy : x = y
      · subst hxy
        have := ih ys (fun z hz => ha z (by simp [hz])) (fun z hz => hb z (by simp [hz]))
        simp [strcmp, this]
      · have hv : (x.val : Int) - (y.val : Int) ≠ 0 := by
          intro e
          apply hxy
          apply Fin.ext
          omega
        simp [strcmp, hxy, hv]

theorem hex8_length (i : Int) : (hex8 i).length = 8 := by
  simp [hex8]

theorem hexDigit_ne_zero (d : Nat) : hexDigit d ≠ 0 := by
  unfold hexDigit
  have hlt : d % 16 < 16 := Nat.mod_lt _ (by decide)
  intro e
  have h := congrArg Fin.val e
  split at h <;> simp [Fin.ofNat] at h <;> omega

theorem hex8_nulFree (i : Int) : ∀ b ∈ hex8 i, b ≠ 0 := by
  intro b hb
  simp only [hex8, List.mem_map] at hb
  obtain ⟨k, _, rfl⟩ := hb
  exact hexDigit_ne_zero _

theorem combinedKeyText_nulFree (f : Bool) (ip : Int) (k : StdString) :
    ∀ b ∈ combinedKeyText f ip k, b ≠ 0 := by
  intro b hb
  unfold combinedKeyText at hb
  split at hb
  · rcases List.mem_append.mp hb with h | h
    · exact hex8_nulFree ip b h
    · exact (c_str k).nulFree b h
  · exact (c_str k).nulFree b hb

/-- Inside the 17 bytes of `combinedKey`, and with a row whose `mailkey` is not NULL,
`VerifyMailKey` is the byte comparison of the stored key with the text of `combinedKey`. -/
theorem VerifyMailKey_of_fits (db : Database) (f : Bool) (name : StdString) (ip : Int)
    (k : StdString) (key : CStr) (rest : List (Option CStr))
    (hrow : db.selectMailKey (c_str name) = some (some key :: rest))
    (hfit : (combinedKeyText f ip k).length ≤ 16) :
    VerifyMailKey db f name ip k = some (decide (key.bytes = combinedKeyText f ip k)) := by
  have hs : sprintfLocal 17 (combinedKeyText f ip k) = some (combinedKeyText f ip k) := by
    unfold sprintfLocal
    rw [if_pos (by omega)]
  have hiff := strcmp_eq_zero_iff key.bytes (combinedKeyText f ip k) key.nulFree
    (combinedKeyText_nulFree f ip k)
  simp only [VerifyMailKey, hrow, hs, List.head?_cons]
  congr 1
  exact decide_eq_decide.mpr hiff

/-- A text longer than 16 bytes does not fit `combinedKey`: whatever the store answers, as long
as the query succeeds, the `sprintf` writes past the array. -/
theorem VerifyMailKey_of_overflow (db : Database) (f : Bool) (name : StdString) (ip : Int)
    (k : StdString) (rows : List (Option CStr))
    (hrow : db.selectMailKey (c_str name) = some rows)
    (hbig : 16 < (combinedKeyText f ip k).length) :
    VerifyMailKey db f name ip k = none := by
  have hs : sprintfLocal 17 (combinedKeyText f ip k) = none := by
    unfold sprintfLocal
    rw [if_neg (by omega)]
  simp only [VerifyMailKey, hrow, hs]

/-- A failed query makes `VerifyMailKey` return false. -/
theorem VerifyMailKey_of_failed_query (db : Database) (f : Bool) (name : StdString) (ip : Int)
    (k : StdString) (hrow : db.selectMailKey (c_str name) = none) :
    VerifyMailKey db f name ip k = some false := by
  simp only [VerifyMailKey, hrow]

/-- With a successful query and no row, `VerifyMailKey` reads a row that is not there. -/
theorem VerifyMailKey_of_no_row (db : Database) (f : Bool) (name : StdString) (ip : Int)
    (k : StdString) (hrow : db.selectMailKey (c_str name) = some []) :
    VerifyMailKey db f name ip k = none := by
  simp only [VerifyMailKey, hrow]
  split <;> rfl

/-- With a row whose `mailkey` is NULL, `VerifyMailKey` gives a null pointer to `strcmp`. -/
theorem VerifyMailKey_of_null_key (db : Database) (f : Bool) (name : StdString) (ip : Int)
    (k : StdString) (rest : List (Option CStr))
    (hrow : db.selectMailKey (c_str name) = some (none :: rest)) :
    VerifyMailKey db f name ip k = none := by
  simp only [VerifyMailKey, hrow]
  split <;> rfl

/-- C1 (code defect): with IP verification on, the address 0x0A0B0C0D, the nine-byte token
"123456789" and the stored key "0A0B0C0D123456789", the stored key is byte-equal to the expected
key (eight hexadecimal digits, then the token), yet `VerifyMailKey` does not return true: the
`sprintf` puts 18 bytes into the 17 bytes of `combinedKey`. -/
theorem VerifyMailKey_long_token_overruns_combinedKey :
    (lit "0A0B0C0D123456789").bytes = hex8 0x0A0B0C0D ++ ascii "123456789" ∧
    VerifyMailKey (fixedDb (some [some (lit "0A0B0C0D123456789")]) none []) true
      (ascii "Bob") 0x0A0B0C0D (ascii "123456789") = none := by
  decide

/-- C2 (code defect): a failed query makes `VerifyMailKey` return false, but with no row for the
character, and with a row whose `mailkey` is NULL, it does not return at all: `row[0]` is read
and given to `strcmp` with nothing behind it. -/
theorem VerifyMailKey_without_stored_key :
    VerifyMailKey (fixedDb none none []) true (ascii "Bob") 0x0A0B0C0D (ascii "12345678")
      = some false ∧
    VerifyMailKey (fixedDb (some []) none []) true (ascii "Bob") 0x0A0B0C0D (ascii "12345678")
      = none ∧
    VerifyMailKey (fixedDb (some [none]) none []) true (ascii "Bob") 0x0A0B0C0D (ascii "12345678")
      = none := by
  decide

/-! ### Writing a packet -/

theorem cursor_create (op : EmuOpcode) (size : Nat) :
    (EQApplicationPacket.create op size).cursor = some (written [] size) := by
  simp [EQApplicationPacket.create, EQApplicationPacket.cursor, written]

theorem store_written (w bytes : List Byte) (n : Nat) (h : bytes.length ≤ n) :
    (written w n).store bytes = some (w ++ bytes ++ List.replicate (n - bytes.length) 0) := by
  unfold WriteCursor.store written
  simp only [List.length_append, List.length_replicate]
  rw [if_pos (by omega)]
  simp [List.take_append_eq_append_take, List.drop_append_eq_append_drop]

theorem store_written_none (w bytes : List Byte) (n : Nat) (h : n < bytes.length) :
    (written w n).store bytes = none := by
  unfold WriteCursor.store written
  simp only [List.length_append, List.length_replicate]
  rw [if_neg (by omega)]

theorem sprintf_written (t w : List Byte) (n : Nat) (h : t.length + 1 ≤ n) :
    (written w n).sprintf t = some (written (w ++ t ++ [0]) (n - (t.length + 1))) := by
  unfold WriteCursor.sprintf
  rw [store_written _ _ _ (by simpa using h)]
  simp [written]

theorem sprintf_written_none (t w : List Byte) (n : Nat) (h : n < t.length + 1) :
    (written w n).sprintf t = none := by
  unfold WriteCursor.sprintf
  rw [store_written_none _ _ _ (by simpa using h)]
  rfl

theorem encodeByte_written (v : Byte) (w : List Byte) (n : Nat) (h : 1 ≤ n) :
    VARSTRUCT_ENCODE_TYPE_uint8 v (written w n) = some (written (w ++ [v]) (n - 1)) := by
  unfold VARSTRUCT_ENCODE_TYPE_uint8
  rw [store_written _ _ _ (by simpa using h)]
  simp [written]

theorem encodeByte_written_none (v : Byte) (w : List Byte) (n : Nat) (h : n < 1) :
    VARSTRUCT_ENCODE_TYPE_uint8 v (written w n) = none := by
  unfold VARSTRUCT_ENCODE_TYPE_uint8
  rw [store_written_none _ _ _ (by simpa using h)]
  rfl

theorem stepBack_written (w : List Byte) (n : Nat) :
    stepBack (written (w ++ [0]) n) = some (written w (n + 1)) := by
  simp [stepBack, written, List.replicate_succ]

theorem c_str_length_le (s : StdString) : (c_str s).bytes.length ≤ s.length := by
  show (s.takeWhile nonNul).length ≤ s.length
  exact (List.takeWhile_sublist _).length_le

theorem headerCountPacket_eq (mb : Int) (n : Nat) :
    headerCountPacket mb n = some ⟨.OP_MailHeaderCount,
      intString mb ++ [0] ++ intString unknownField2 ++ [0] ++ intString unknownField3 ++ [0]
        ++ intString n ++ [0]⟩ := by
  unfold headerCountPacket headerCountPacketLength VARSTRUCT_ENCODE_INTSTRING
  generalize intString mb = f1
  generalize intString unknownField2 = f2
  generalize intString unknownField3 = f3
  generalize intString (n : Int) = f4
  rw [cursor_create]
  simp only [Option.some_bind, Option.bind_eq_bind]
  rw [sprintf_written _ _ _ (by omega)]
  simp only [Option.some_bind, Option.bind_eq_bind]
  rw [sprintf_written _ _ _ (by omega)]
  simp only [Option.some_bind, Option.bind_eq_bind]
  rw [sprintf_written _ _ _ (by omega)]
  simp only [Option.some_bind, Option.bind_eq_bind]
  rw [sprintf_written _ _ _ (by omega)]
  have h0 : f1.length + 1 + (f2.length + 1) + (f3.length + 1) + (f4.length + 1)
      - (f1.length + 1) - (f2.length + 1) - (f3.length + 1) - (f4.length + 1) = 0 := by omega
  rw [h0]
  simp [written, WriteCursor.packet]

theorem headerPacket_eq (mb : Int) (pre : StdString) (i : Nat) (row : HeaderRow) :
    headerPacket mb pre i row = some ⟨.OP_MailHeader,
      intString mb ++ [0] ++ intString unknownField2 ++ [0] ++ intString i ++ [0]
        ++ row.msgid.bytes ++ [0] ++ row.timestamp.bytes ++ [0] ++ row.status.bytes ++ [0]
        ++ (c_str pre).bytes ++ row.from_.bytes ++ [0] ++ row.subject.bytes ++ [0]
        ++ List.replicate (pre.length - (c_str pre).bytes.length) 0⟩ := by
  have hp := c_str_length_le pre
  unfold headerPacket headerPacketLength strlen VARSTRUCT_ENCODE_INTSTRING VARSTRUCT_ENCODE_STRING
  generalize intString mb = f1
  generalize intString unknownField2 = f2
  generalize intString (i : Int) = f3
  generalize row.msgid.bytes = f4
  generalize row.timestamp.bytes = f5
  generalize row.status.bytes = f6
  generalize row.from_.bytes = f7
  generalize row.subject.bytes = f8
  generalize (c_str pre).bytes = p at hp
  generalize pre.length = k at hp
  rw [cursor_create]
  simp only [Option.some_bind, Option.bind_eq_bind]
  rw [sprintf_written _ _ _ (by omega)]
  simp only [Option.some_bind, Option.bind_eq_bind]
  rw [sprintf_written _ _ _ (by omega)]
  simp only [Option.some_bind, Option.bind_eq_bind]
  rw [sprintf_written _ _ _ (by omega)]
  simp only [Option.some_bind, Option.bind_eq_bind]
  rw [sprintf_written _ _ _ (by omega)]
  simp only [Option.some_bind, Option.bind_eq_bind]
  rw [sprintf_written _ _ _ (by omega)]
  simp only [Option.some_bind, Option.bind_eq_bind]
  rw [sprintf_written _ _ _ (by omega)]
  simp only [Option.some_bind, Option.bind_eq_bind]
  rw [sprintf_written _ _ _ (by omega)]
  simp only [Option.some_bind, Option.bind_eq_bind]
  rw [stepBack_written]
  simp only [Option.some_bind, Option.bind_eq_bind]
  rw [sprintf_written _ _ _ (by omega)]
  simp only [Option.some_bind, Option.bind_eq_bind]
  rw [sprintf_written _ _ _ (by omega)]
  have h0 : f1.length + 1 + (f2.length + 1) + (f3.length + 1) + (f4.length + 1) + (f5.length + 1)
      + (f6.length + 1) + (k + f7.length + 1) + (f8.length + 1)
      - (f1.length + 1) - (f2.length + 1) - (f3.length + 1) - (f4.length + 1) - (f5.length + 1)
      - (f6.length + 1) - (p.length + 1) + 1 - (f7.length + 1) - (f8.length + 1)
      = k - p.length := by omega
  rw [h0]
  simp [written, WriteCursor.packet]

theorem lit_one : (lit "1").bytes = [0x31] := by decide

theorem lit_to : (lit "TO:").bytes = [0x54, 0x4F, 0x3A] := by decide

/-- With a mailbox number of one character, `SendBody` fills its packet exactly. -/
theorem bodyPacket_eq (mb : Int) (row : BodyRow) (h : (intString mb).length = 1) :
    bodyPacket mb row = some ⟨.OP_MailSendBody,
      intString mb ++ [0] ++ row.msgid.bytes ++ [0] ++ row.body.bytes ++ [0] ++ [0x31, 0]
        ++ [0, 0x0A] ++ [0x54, 0x4F, 0x3A] ++ row.to_.bytes ++ [0x0A]⟩ := by
  unfold bodyPacket strlen VARSTRUCT_ENCODE_INTSTRING VARSTRUCT_ENCODE_STRING
  rw [lit_one, lit_to]
  generalize intString mb = f1 at h
  generalize row.msgid.bytes = f2
  generalize row.body.bytes = f3
  generalize row.to_.bytes = f4
  rw [cursor_create]
  simp only [Option.some_bind, Option.bind_eq_bind]
  rw [sprintf_written _ _ _ (by omega)]
  simp only [Option.some_bind, Option.bind_eq_bind]
  rw [sprintf_written _ _ _ (by omega)]
  simp only [Option.some_bind, Option.bind_eq_bind]
  rw [sprintf_written _ _ _ (by omega)]
  simp only [Option.some_bind, Option.bind_eq_bind]
  rw [sprintf_written _ _ _ (by simp only [List.length_cons, List.length_nil]; omega)]
  simp only [Option.some_bind, Option.bind_eq_bind]
  rw [encodeByte_written _ _ _ (by simp only [List.length_cons, List.length_nil]; omega)]
  simp only [Option.some_bind, Option.bind_eq_bind]
  rw [encodeByte_written _ _ _ (by simp only [List.length_cons, List.length_nil]; omega)]
  simp only [Option.some_bind, Option.bind_eq_bind]
  rw [sprintf_written _ _ _ (by simp only [List.length_cons, List.length_nil]; omega)]
  simp only [Option.some_bind, Option.bind_eq_bind]
  rw [stepBack_written]
  simp only [Option.some_bind, Option.bind_eq_bind]
  rw [sprintf_written _ _ _ (by simp only [List.length_cons, List.length_nil]; omega)]
  simp only [Option.some_bind, Option.bind_eq_bind]
  rw [stepBack_written]
  simp only [Option.some_bind, Option.bind_eq_bind]
  rw [encodeByte_written _ _ _ (by simp only [List.length_cons, List.length_nil]; omega)]
  have h0 : 12 + f2.length + f3.length + f4.length
      - (f1.length + 1) - (f2.length + 1) - (f3.length + 1)
      - ([(0x31 : Byte)].length + 1) - 1 - 1 - ([(0x54 : Byte), 0x4F, 0x3A].length + 1) + 1
      - (f4.length + 1) + 1 - 1 = 0 := by
    simp only [List.length_cons, List.length_nil]
    omega
  rw [h0]
  simp [written, WriteCursor.packet]

/-- With a mailbox number of two characters or more, the writes of `SendBody` do not fit the
packet it allocated. -/
theorem bodyPacket_overrun (mb : Int) (row : BodyRow) (h : 1 < (intString mb).length) :
    bodyPacket mb row = none := by
  unfold bodyPacket strlen VARSTRUCT_ENCODE_INTSTRING VARSTRUCT_ENCODE_STRING
  rw [lit_one, lit_to]
  generalize intString mb = f1 at h
  generalize row.msgid.bytes = f2
  generalize row.body.bytes = f3
  generalize row.to_.bytes = f4
  rw [cursor_create]
  simp only [Option.some_bind, Option.bind_eq_bind, List.length_cons, List.length_nil]
  generalize hL : 12 + f2.length + f3.length + f4.length = L
  rcases Nat.lt_or_ge L (f1.length + 1) with h1 | h1
  · rw [sprintf_written_none _ _ _ h1]; simp only [Option.none_bind, Option.map_none']
  rw [sprintf_written _ _ _ h1]
  rw [Option.some_bind]
  generalize hL1 : L - (f1.length + 1) = L1
  rcases Nat.lt_or_ge L1 (f2.length + 1) with h2 | h2
  · rw [sprintf_written_none _ _ _ h2]; simp only [Option.none_bind, Option.map_none']
  rw [sprintf_written _ _ _ h2]
  rw [Option.some_bind]
  generalize hL2 : L1 - (f2.length + 1) = L2
  rcases Nat.lt_or_ge L2 (f3.length + 1) with h3 | h3
  · rw [sprintf_written_none _ _ _ h3]; simp only [Option.none_bind, Option.map_none']
  rw [sprintf_written _ _ _ h3]
  rw [Option.some_bind]
  generalize hL3 : L2 - (f3.length + 1) = L3
  rcases Nat.lt_or_ge L3 2 with h4 | h4
  · rw [sprintf_written_none _ _ _ (by simpa using h4)]; simp only [Option.none_bind, Option.map_none']
  rw [sprintf_written _ _ _ (by simpa using h4)]
  rw [Option.some_bind]
  simp only [List.length_cons, List.length_nil]
  generalize hL4 : L3 - (0 + 1 + 1) = L4
  rcases Nat.lt_or_ge L4 1 with h5 | h5
  · rw [encodeByte_written_none _ _ _ h5]
    simp only [Option.none_bind, Option.map_none']
  rw [encodeByte_written _ _ _ h5]
  rw [Option.some_bind]
  generalize hL5 : L4 - 1 = L5
  rcases Nat.lt_or_ge L5 1 with h6 | h6
  · rw [encodeByte_written_none _ _ _ h6]
    simp only [Option.none_bind, Option.map_none']
  rw [encodeByte_written _ _ _ h6]
  rw [Option.some_bind]
  generalize hL6 : L5 - 1 = L6
  rcases Nat.lt_or_ge L6 4 with h7 | h7
  · rw [sprintf_written_none _ _ _ (by simpa using h7)]; simp only [Option.none_bind, Option.map_none']
  rw [sprintf_written _ _ _ (by simpa using h7), Option.some_bind, stepBack_written]
  rw [Option.some_bind]
  simp only [List.length_cons, List.length_nil]
  generalize hL7 : L6 - (0 + 1 + 1 + 1 + 1) + 1 = L7
  rcases Nat.lt_or_ge L7 (f4.length + 1) with h8 | h8
  · rw [sprintf_written_none _ _ _ h8]; simp only [Option.none_bind, Option.map_none']
  omega
/-! ### Decimal text -/

theorem digit_ne_zero (d : Nat) : digit d ≠ 0 := by
  unfold digit
  intro e
  have h := congrArg Fin.val e
  have hlt : d % 10 < 10 := Nat.mod_lt _ (by decide)
  simp [Fin.ofNat] at h
  omega

theorem natDigitsAux_nulFree (fuel n : Nat) (acc : List Byte) (h : ∀ b ∈ acc, b ≠ 0) :
    ∀ b ∈ natDigitsAux fuel n acc, b ≠ 0 := by
  induction fuel generalizing n acc with
  | zero => simpa [natDigitsAux] using h
  | succ fuel ih =>
    have hacc : ∀ b ∈ digit n :: acc, b ≠ 0 := by
      intro b hb
      rcases List.mem_cons.mp hb with rfl | hb
      · exact digit_ne_zero n
      · exact h b hb
    unfold natDigitsAux
    split
    · exact hacc
    · exact ih _ _ hacc

theorem intString_nulFree (i : Int) : ∀ b ∈ intString i, b ≠ 0 := by
  cases i with
  | ofNat n => exact natDigitsAux_nulFree _ _ _ (by simp)
  | negSucc n =>
    intro b hb
    rcases List.mem_cons.mp hb with rfl | hb
    · decide
    · exact natDigitsAux_nulFree _ _ _ (by simp) b hb

theorem c_str_intString (i : Int) : (c_str (intString i)).bytes = intString i :=
  c_str_bytes_of_nulFree _ (intString_nulFree i)

theorem natDigitsAux_length_ge (fuel n : Nat) (acc : List Byte) (hf : 0 < fuel) :
    acc.length + 1 ≤ (natDigitsAux fuel n acc).length := by
  induction fuel generalizing n acc with
  | zero => omega
  | succ fuel ih =>
    unfold natDigitsAux
    split
    · simp
    · next hn =>
      cases fuel with
      | zero => simp [natDigitsAux]
      | succ fuel =>
        have := ih (n / 10) (digit n :: acc) (by omega)
        simp only [List.length_cons] at this
        omega

theorem intString_length_of_digit (i : Int) (h0 : 0 ≤ i) (h9 : i ≤ 9) :
    (intString i).length = 1 := by
  obtain ⟨n, rfl⟩ := Int.eq_ofNat_of_zero_le h0
  have hn : n ≤ 9 := by omega
  show (natDigitsAux (n + 1) n []).length = 1
  unfold natDigitsAux
  rw [if_pos (by omega)]
  rfl

theorem intString_length_of_not_digit (i : Int) (h : i < 0 ∨ 9 < i) :
    1 < (intString i).length := by
  cases i with
  | ofNat n =>
    have hn : 9 < n := by
      simp only [Int.ofNat_eq_coe] at h
      omega
    show 1 < (natDigitsAux (n + 1) n []).length
    unfold natDigitsAux
    rw [if_neg (by omega)]
    have := natDigitsAux_length_ge n (n / 10) [digit n] (by omega)
    simp only [List.length_cons, List.length_nil] at this
    omega
  | negSucc n =>
    show 1 < (0x2D :: natDigitsAux (n + 1 + 1) (n + 1) []).length
    have := natDigitsAux_length_ge (n + 1 + 1) (n + 1) [] (by omega)
    simp only [List.length_cons, List.length_nil] at this ⊢
    omega

theorem digit_val (n : Nat) : (digit n).val = 48 + n % 10 := by
  have hlt : n % 10 < 10 := Nat.mod_lt _ (by decide)
  simp only [digit, Fin.ofNat, Fin.val_mk]
  omega

theorem atoiDigits_digit_cons (n : Nat) (rest : List Byte) (v : Nat) :
    atoiDigits (digit n :: rest) v = atoiDigits rest (v * 10 + n % 10) := by
  have hlt : n % 10 < 10 := Nat.mod_lt _ (by decide)
  have hv := digit_val n
  simp only [atoiDigits, hv]
  rw [if_pos (by omega)]
  congr 1
  omega

theorem atoiDigits_natDigitsAux (fuel n : Nat) (acc : List Byte) (h : n < fuel) :
    ∃ k, ∀ v, atoiDigits (natDigitsAux fuel n acc) v = atoiDigits acc (v * 10 ^ k + n) := by
  induction fuel generalizing n acc with
  | zero => omega
  | succ fuel ih =>
    unfold natDigitsAux
    split
    · next h0 =>
      refine ⟨1, fun v => ?_⟩
      rw [atoiDigits_digit_cons]
      congr 1
      have : n % 10 = n := Nat.mod_eq_of_lt (by omega)
      omega
    · next h0 =>
      obtain ⟨k, hk⟩ := ih (n / 10) (digit n :: acc) (by omega)
      refine ⟨k + 1, fun v => ?_⟩
      rw [hk, atoiDigits_digit_cons]
      congr 1
      have := Nat.div_add_mod n 10
      rw [pow_succ]
      nlinarith [Nat.div_add_mod n 10]

theorem atoiDigits_natDigits (n : Nat) : atoiDigits (natDigits n) 0 = n := by
  obtain ⟨k, hk⟩ := atoiDigits_natDigitsAux (n + 1) n [] (by omega)
  rw [natDigits, hk]
  simp [atoiDigits]

theorem natDigitsAux_head (fuel n : Nat) (acc : List Byte) :
    ∃ m tail, natDigitsAux (fuel + 1) n acc = digit m :: tail := by
  induction fuel generalizing n acc with
  | zero =>
    refine ⟨n, acc, ?_⟩
    simp [natDigitsAux]
  | succ fuel ih =>
    unfold natDigitsAux
    split
    · exact ⟨n, acc, rfl⟩
    · exact ih (n / 10) (digit n :: acc)

theorem atoi_cons (b : Byte) (rest : List Byte) (h : isspace b = false) :
    atoi (b :: rest)
      = if b.val = 0x2D then 0 - (atoiDigits rest 0 : Int)
        else if b.val = 0x2B then (atoiDigits rest 0 : Int)
        else (atoiDigits (b :: rest) 0 : Int) := by
  unfold atoi
  rw [List.dropWhile_cons, h]
  rfl

/-- Reading back with `atoi` what `%i` printed gives the number. -/
theorem atoi_intString (i : Int) : atoi (intString i) = i := by
  cases i with
  | ofNat n =>
    obtain ⟨m, tail, hm⟩ := natDigitsAux_head n n []
    have hv := digit_val m
    have hlt : m % 10 < 10 := Nat.mod_lt _ (by decide)
    have hval := atoiDigits_natDigits n
    have hsp : isspace (digit m) = false := by
      simp only [isspace, hv]
      simp
      omega
    show atoi (natDigitsAux (n + 1) n []) = _
    rw [natDigits, hm] at hval
    rw [hm, atoi_cons _ _ hsp, hv, if_neg (by omega), if_neg (by omega), hval]
    rfl
  | negSucc n =>
    have hval := atoiDigits_natDigits (n + 1)
    show atoi (0x2D :: natDigits (n + 1)) = _
    rw [atoi_cons _ _ (by decide), if_pos (by decide), hval]
    simp [Int.negSucc_eq]

/-- Two numbers that `%i` prints the same are the same number. -/
theorem intString_injective (i j : Int) (h : intString i = intString j) : i = j := by
  rw [← atoi_intString i, ← atoi_intString j, h]

/-! ### The wire format -/

theorem takeWhile_nonNul_append (f rest : List Byte) (h : ∀ b ∈ f, b ≠ 0) :
    (f ++ 0 :: rest).takeWhile nonNul = f := by
  induction f with
  | nil => simp [nonNul]
  | cons x xs ih =>
    have hx : nonNul x = true := by simpa [nonNul] using h x (by simp)
    simp only [List.cons_append, List.takeWhile_cons, hx, if_true]
    rw [ih (fun b hb => h b (by simp [hb]))]

theorem dropWhile_nonNul_append (f rest : List Byte) (h : ∀ b ∈ f, b ≠ 0) :
    (f ++ 0 :: rest).dropWhile nonNul = 0 :: rest := by
  induction f with
  | nil => simp [nonNul]
  | cons x xs ih =>
    have hx : nonNul x = true := by simpa [nonNul] using h x (by simp)
    simp only [List.cons_append, List.dropWhile_cons, hx, if_true]
    rw [ih (fun b hb => h b (by simp [hb]))]

/-- Decoding what was encoded from fields without a NUL gives the fields back. -/
theorem WireEncoder.decode_encode (fields : List (List Byte))
    (h : ∀ f ∈ fields, ∀ b ∈ f, b ≠ 0) :
    WireEncoder.decode fields.length (WireEncoder.encode fields) = some fields := by
  induction fields with
  | nil => simp [WireEncoder.decode, WireEncoder.encode]
  | cons f fs ih =>
    have hf : ∀ b ∈ f, b ≠ 0 := h f (by simp)
    have hfs : ∀ g ∈ fs, ∀ b ∈ g, b ≠ 0 := fun g hg => h g (by simp [hg])
    simp only [List.length_cons, WireEncoder.decode, WireEncoder.encode,
      dropWhile_nonNul_append f _ hf, takeWhile_nonNul_append f _ hf, ih hfs, Option.map_some']

/-- Two lists of fields without a NUL that encode to the same bytes are the same list. -/
theorem WireEncoder.encode_injective (fs gs : List (List Byte))
    (hf : ∀ f ∈ fs, ∀ b ∈ f, b ≠ 0) (hg : ∀ g ∈ gs, ∀ b ∈ g, b ≠ 0)
    (h : WireEncoder.encode fs = WireEncoder.encode gs) : fs = gs := by
  induction fs generalizing gs with
  | nil =>
    cases gs with
    | nil => rfl
    | cons g gs => simp [WireEncoder.encode] at h
  | cons f fs ih =>
    cases gs with
    | nil => simp [WireEncoder.encode] at h
    | cons g gs =>
      have hf0 : ∀ b ∈ f, b ≠ 0 := hf f (by simp)
      have hg0 : ∀ b ∈ g, b ≠ 0 := hg g (by simp)
      simp only [WireEncoder.encode] at h
      have ht := congrArg (List.takeWhile nonNul) h
      rw [takeWhile_nonNul_append f _ hf0, takeWhile_nonNul_append g _ hg0] at ht
      have hd := congrArg (List.dropWhile nonNul) h
      rw [dropWhile_nonNul_append f _ hf0, dropWhile_nonNul_append g _ hg0] at hd
      have hrest : WireEncoder.encode fs = WireEncoder.encode gs := by
        simpa using hd
      rw [ht, ih gs (fun x hx => hf x (by simp [hx])) (fun x hx => hg x (by simp [hx])) hrest]

/-! ### `SendHeaders` -/

theorem headerCountPacket_encode (mb : Int) (n : Nat) :
    headerCountPacket mb n = some ⟨.OP_MailHeaderCount,
      WireEncoder.encode [intString mb, ascii "25015275", ascii "1", intString n]⟩ := by
  rw [headerCountPacket_eq]
  have h2 : intString unknownField2 = ascii "25015275" := by decide
  have h3 : intString unknownField3 = ascii "1" := by decide
  rw [h2, h3]
  simp [WireEncoder.encode]

theorem headerPacket_headerBytes (mb : Int) (pre : StdString) (i : Nat) (row : HeaderRow) :
    headerPacket mb pre i row = some ⟨.OP_MailHeader, headerBytes mb pre i row⟩ := by
  rw [headerPacket_eq]
  simp [headerBytes, WireEncoder.encode]

theorem headerPackets_spec (mb : Int) (pre : StdString) (rows : List HeaderRow) (k : Nat) :
    ∃ hs, headerPackets mb pre k rows = some hs ∧ hs.length = rows.length ∧
      ∀ i (h : i < rows.length),
        hs[i]? = some ⟨.OP_MailHeader, headerBytes mb pre (k + i) rows[i]⟩ := by
  induction rows generalizing k with
  | nil => exact ⟨[], rfl, rfl, fun i h => absurd h (by simp)⟩
  | cons row rows ih =>
    obtain ⟨hs, h1, h2, h3⟩ := ih (k + 1)
    refine ⟨⟨.OP_MailHeader, headerBytes mb pre k row⟩ :: hs, ?_, by simp [h2], ?_⟩
    · simp only [headerPackets, headerPacket_headerBytes, h1, Option.map_some']
    · intro i h
      cases i with
      | zero => simp
      | succ i =>
        have hi : i < rows.length := by simpa using h
        have := h3 i hi
        simp only [List.getElem?_cons_succ, List.getElem_cons_succ, this]
        congr 3
        omega

theorem SendHeaders_eq (db : Database) (pre : StdString) (client : Client)
    (rows : List HeaderRow) (hid : 0 < FindCharacter db (c_str client.MailBoxName))
    (hq : db.selectHeaders (FindCharacter db (c_str client.MailBoxName)) = some rows) :
    SendHeaders db pre client
      = (headerPackets client.GetMailBoxNumber pre 0 rows).map (fun ps =>
          ⟨.OP_MailHeaderCount, WireEncoder.encode [intString client.GetMailBoxNumber,
            ascii "25015275", ascii "1", intString rows.length]⟩ :: ps) := by
  unfold SendHeaders
  simp only [if_neg (not_le.mpr hid), hq, headerCountPacket_encode]

/-! ### `SendBody` -/

theorem SendBody_eq (db : Database) (client : Client) (messageNumber : Int) (row : BodyRow)
    (hid : 0 < FindCharacter db (c_str client.MailBoxName))
    (hq : db.selectBody (FindCharacter db (c_str client.MailBoxName)) messageNumber
      = some [row]) :
    SendBody db client messageNumber
      = (bodyPacket client.GetMailBoxNumber row).map (fun p => [p]) := by
  unfold SendBody
  simp only [if_neg (not_le.mpr hid), hq]

/-- With a mailbox number from 0 to 9, the body packet is the byte sequence: the number, NUL,
`msgid`, NUL, body, NUL, "1", NUL, the bytes 0x00 0x0A, "TO:" and the `to` field with nothing
between them, and one 0x0A. -/
theorem SendBody_of_digit (db : Database) (client : Client) (messageNumber : Int)
    (row : BodyRow) (hid : 0 < FindCharacter db (c_str client.MailBoxName))
    (hq : db.selectBody (FindCharacter db (c_str client.MailBoxName)) messageNumber
      = some [row])
    (h0 : 0 ≤ client.GetMailBoxNumber) (h9 : client.GetMailBoxNumber ≤ 9) :
    SendBody db client messageNumber = some [⟨.OP_MailSendBody,
      intString client.GetMailBoxNumber ++ [0] ++ row.msgid.bytes ++ [0] ++ row.body.bytes ++ [0]
        ++ ascii "1" ++ [0] ++ [0x00, 0x0A] ++ ascii "TO:" ++ row.to_.bytes ++ [0x0A]⟩] := by
  rw [SendBody_eq db client messageNumber row hid hq,
    bodyPacket_eq _ _ (intString_length_of_digit _ h0 h9)]
  have h1 : ascii "1" = [0x31] := by decide
  have h2 : ascii "TO:" = [0x54, 0x4F, 0x3A] := by decide
  rw [h1, h2]
  simp

/-- With any other mailbox number, the writes of `SendBody` run past the packet. -/
theorem SendBody_of_not_digit (db : Database) (client : Client) (messageNumber : Int)
    (row : BodyRow) (hid : 0 < FindCharacter db (c_str client.MailBoxName))
    (hq : db.selectBody (FindCharacter db (c_str client.MailBoxName)) messageNumber
      = some [row])
    (h : client.GetMailBoxNumber < 0 ∨ 9 < client.GetMailBoxNumber) :
    SendBody db client messageNumber = none := by
  rw [SendBody_eq db client messageNumber row hid hq,
    bodyPacket_overrun _ _ (intString_length_of_not_digit _ h)]
  rfl

/-- C3 (code defect): for mailbox number 3 the body packet of message 7 is the claimed byte
sequence, 21 bytes for the 21 allocated. For mailbox number 10 the claimed sequence has 22 bytes,
and `SendBody`, which again allocated 12 + 1 + 5 + 3 = 21, writes past the end of the packet. -/
theorem SendBody_mailbox_ten_overruns_packet :
    SendBody bobDb ⟨ascii "Bob", 3⟩ 7
      = some [⟨.OP_MailSendBody, ascii "3\x007\x00hello\x001\x00\x00\nTO:Bob\n"⟩] ∧
    (ascii "10\x007\x00hello\x001\x00\x00\nTO:Bob\n").length = 22 ∧
    SendBody bobDb ⟨ascii "Bob", 10⟩ 7 = none := by
  decide

/-! ### The claims on `SendHeaders` -/

/-- C4 (counterexample): for the one letter of `bobDb` (message 7, time 1000, from Alice,
subject Hi, status 1), mailbox 3 and the prefix "SOE.EQ.srv.", the header packet has eight
fields, the fifth being the timestamp "1000" and the last the subject; the seven fields of the
claim, with the sender "Alice" between message id and status, are not among them in that
order. -/
theorem SendHeaders_sends_timestamp_where_claim_has_sender :
    SendHeaders bobDb (ascii "SOE.EQ.srv.") ⟨ascii "Bob", 3⟩
      = some [⟨.OP_MailHeaderCount, ascii "3\x0025015275\x001\x001\x00"⟩,
          ⟨.OP_MailHeader,
            ascii "3\x0025015275\x000\x007\x001000\x001\x00SOE.EQ.srv.Alice\x00Hi\x00"⟩] ∧
    WireEncoder.decode 8
        (ascii "3\x0025015275\x000\x007\x001000\x001\x00SOE.EQ.srv.Alice\x00Hi\x00")
      = some [ascii "3", ascii "25015275", ascii "0", ascii "7", ascii "1000", ascii "1",
          ascii "SOE.EQ.srv.Alice", ascii "Hi"] ∧
    ¬ List.Sublist
        [ascii "3", ascii "25015275", ascii "0", ascii "7", ascii "Alice", ascii "1",
          ascii "SOE.EQ.srv.Alice"]
        [ascii "3", ascii "25015275", ascii "0", ascii "7", ascii "1000", ascii "1",
          ascii "SOE.EQ.srv.Alice", ascii "Hi"] := by
  decide

/-- C4 (amended): for every mail row of the character, the header packet of `SendHeaders` is, in
this order and each with its NUL: the mailbox number, the constant 25015275, the zero-based row
index, the message id, the timestamp, the status, the mail prefix (as a C string) immediately
followed by the sender, and the subject; behind them come only the zero bytes the length
computation adds for a prefix with a NUL inside, none for any other prefix. -/
theorem SendHeaders_header_packet (db : Database) (pre : StdString) (client : Client)
    (rows : List HeaderRow) (hid : 0 < FindCharacter db (c_str client.MailBoxName))
    (hq : db.selectHeaders (FindCharacter db (c_str client.MailBoxName)) = some rows)
    (i : Nat) (hi : i < rows.length) :
    (SendHeaders db pre client).map (fun ps => ps[i + 1]?)
      = some (some ⟨.OP_MailHeader,
          WireEncoder.encode [intString client.GetMailBoxNumber, ascii "25015275", intString i,
            rows[i].msgid.bytes, rows[i].timestamp.bytes, rows[i].status.bytes,
            (c_str pre).bytes ++ rows[i].from_.bytes, rows[i].subject.bytes]
          ++ List.replicate (pre.length - (c_str pre).bytes.length) 0⟩) := by
  obtain ⟨hs, h1, _, h3⟩ := headerPackets_spec client.GetMailBoxNumber pre rows 0
  have h2 : intString unknownField2 = ascii "25015275" := by decide
  rw [SendHeaders_eq db pre client rows hid hq, h1]
  simp only [Option.map_some', List.getElem?_cons_succ, h3 i hi, headerBytes, h2, Nat.zero_add]

/-- Witness of C4 (amended): the header packet of the one letter of `bobDb`, for mailbox 3. -/
theorem SendHeaders_header_packet_witness :
    (SendHeaders bobDb (ascii "SOE.EQ.srv.") ⟨ascii "Bob", 3⟩).map (fun ps => ps[0 + 1]?)
      = some (some ⟨.OP_MailHeader,
          WireEncoder.encode [intString 3, ascii "25015275", intString (0 : Nat),
            (lit "7").bytes, (lit "1000").bytes, (lit "1").bytes,
            (c_str (ascii "SOE.EQ.srv.")).bytes ++ (lit "Alice").bytes, (lit "Hi").bytes]
          ++ List.replicate ((ascii "SOE.EQ.srv.").length
              - (c_str (ascii "SOE.EQ.srv.")).bytes.length) 0⟩) :=
  SendHeaders_header_packet bobDb (ascii "SOE.EQ.srv.") ⟨ascii "Bob", 3⟩
    [bobsMail.toHeaderRow] (by decide) (by decide) 0 (by decide)

theorem WireEncoder.encode_append (fs gs : List (List Byte)) :
    WireEncoder.encode (fs ++ gs) = WireEncoder.encode fs ++ WireEncoder.encode gs := by
  induction fs with
  | nil => rfl
  | cons f fs ih => simp [WireEncoder.encode, ih]

theorem headerPackets_eq_zipWith (mb : Int) (pre : StdString) (rows : List HeaderRow) (k : Nat) :
    headerPackets mb pre k rows
      = some (List.zipWith (fun (i : Nat) (row : HeaderRow) =>
          (⟨.OP_MailHeader, headerBytes mb pre i row⟩ : EQApplicationPacket))
          (List.range' k rows.length) rows) := by
  induction rows generalizing k with
  | nil => rfl
  | cons row rows ih =>
    simp only [headerPackets, headerPacket_headerBytes, ih (k + 1), Option.map_some',
      List.length_cons, List.range'_succ, List.zipWith_cons_cons]

/-- C5: when the mailbox character has a positive id and the mail query succeeds with the rows
`rows`, n of them, `SendHeaders` queues n + 1 packets. The first is the header-count packet with
the fields decimal mailbox number, "25015275", "1" and decimal n, each with its NUL. Then comes,
for i = 0 .. n-1 in this order, the header packet of the i-th row: its third field is the
decimal of i and its other fields are the mailbox number, "25015275" and the texts of that row.
With no row there is the count packet with "0" and nothing else. -/
theorem SendHeaders_count_then_headers (db : Database) (pre : StdString) (client : Client)
    (rows : List HeaderRow) (hid : 0 < FindCharacter db (c_str client.MailBoxName))
    (hq : db.selectHeaders (FindCharacter db (c_str client.MailBoxName)) = some rows) :
    SendHeaders db pre client
      = some (⟨.OP_MailHeaderCount, WireEncoder.encode [intString client.GetMailBoxNumber,
            ascii "25015275", ascii "1", intString rows.length]⟩ ::
          List.zipWith (fun (i : Nat) (row : HeaderRow) =>
            (⟨.OP_MailHeader,
              WireEncoder.encode [intString client.GetMailBoxNumber, ascii "25015275",
                intString i, row.msgid.bytes, row.timestamp.bytes, row.status.bytes,
                (c_str pre).bytes ++ row.from_.bytes, row.subject.bytes]
              ++ List.replicate (pre.length - (c_str pre).bytes.length) 0⟩ :
              EQApplicationPacket))
            (List.range rows.length) rows) ∧
    (SendHeaders db pre client).map List.length = some (rows.length + 1) ∧
    (rows = [] → SendHeaders db pre client
      = some [⟨.OP_MailHeaderCount, WireEncoder.encode [intString client.GetMailBoxNumber,
            ascii "25015275", ascii "1", ascii "0"]⟩]) := by
  have hu : intString unknownField2 = ascii "25015275" := by decide
  have hmain : SendHeaders db pre client
      = some (⟨.OP_MailHeaderCount, WireEncoder.encode [intString client.GetMailBoxNumber,
            ascii "25015275", ascii "1", intString rows.length]⟩ ::
          List.zipWith (fun (i : Nat) (row : HeaderRow) =>
            (⟨.OP_MailHeader,
              WireEncoder.encode [intString client.GetMailBoxNumber, ascii "25015275",
                intString i, row.msgid.bytes, row.timestamp.bytes, row.status.bytes,
                (c_str pre).bytes ++ row.from_.bytes, row.subject.bytes]
              ++ List.replicate (pre.length - (c_str pre).bytes.length) 0⟩ :
              EQApplicationPacket))
            (List.range rows.length) rows) := by
    rw [SendHeaders_eq db pre client rows hid hq, headerPackets_eq_zipWith,
      List.range_eq_range']
    simp only [Option.map_some', headerBytes, hu]
  refine ⟨hmain, ?_, ?_⟩
  · rw [hmain]
    simp
  · intro hrows
    rw [hmain, hrows]
    rfl

set_option maxRecDepth 100000 in
/-- Witness of C5: `SendHeaders` on `threeLetterDb` for mailbox 3, where the mail query has the
rows of message 7 and message 9, in this order. -/
theorem SendHeaders_count_then_headers_witness :
    SendHeaders threeLetterDb (ascii "SOE.EQ.srv.") ⟨ascii "Bob", 3⟩
      = some [⟨.OP_MailHeaderCount, ascii "3\x0025015275\x001\x002\x00"⟩,
          ⟨.OP_MailHeader,
            ascii "3\x0025015275\x000\x007\x001000\x001\x00SOE.EQ.srv.Alice\x00Hi\x00"⟩,
          ⟨.OP_MailHeader,
            ascii "3\x0025015275\x001\x009\x001500\x003\x00SOE.EQ.srv.Carol\x00Re: Hi\x00"⟩] :=
  (SendHeaders_count_then_headers threeLetterDb (ascii "SOE.EQ.srv.") ⟨ascii "Bob", 3⟩
    [bobsMail.toHeaderRow, bobsSecondMail.toHeaderRow]
    (by decide) (by decide)).1.trans (by decide)

/-- C6: for a mail prefix without a NUL, splitting the header-count packet of `SendHeaders` on
its NULs into four fields, and a header packet into eight, gives back the fields that were
encoded, numbers as their decimal text and the prefix with the sender as one field; and two
count packets, or two header packets, with the same bytes have the same fields, and so the same
mailbox number and row count or row index. -/
theorem SendHeaders_packets_decode (mb : Int) (pre : StdString) (n i : Nat) (row : HeaderRow)
    (hpre : ∀ b ∈ pre, b ≠ 0) :
    (headerCountPacket mb n).map (fun p => WireEncoder.decode 4 p.pBuffer)
      = some (some [intString mb, ascii "25015275", ascii "1", intString n]) ∧
    (headerPacket mb pre i row).map (fun p => WireEncoder.decode 8 p.pBuffer)
      = some (some [intString mb, ascii "25015275", intString i, row.msgid.bytes,
          row.timestamp.bytes, row.status.bytes, pre ++ row.from_.bytes, row.subject.bytes]) ∧
    (∀ (mb2 : Int) (pre2 : StdString) (i2 : Nat) (row2 : HeaderRow), (∀ b ∈ pre2, b ≠ 0) →
      headerPacket mb pre i row = headerPacket mb2 pre2 i2 row2 →
      [intString mb, ascii "25015275", intString i, row.msgid.bytes,
          row.timestamp.bytes, row.status.bytes, pre ++ row.from_.bytes, row.subject.bytes]
        = [intString mb2, ascii "25015275", intString i2, row2.msgid.bytes,
          row2.timestamp.bytes, row2.status.bytes, pre2 ++ row2.from_.bytes,
          row2.subject.bytes] ∧ mb = mb2 ∧ i = i2) ∧
    ∀ (mb2 : Int) (n2 : Nat), headerCountPacket mb n = headerCountPacket mb2 n2 →
      [intString mb, ascii "25015275", ascii "1", intString n]
        = [intString mb2, ascii "25015275", ascii "1", intString n2] ∧ mb = mb2 ∧ n = n2 := by
  have hu : intString unknownField2 = ascii "25015275" := by decide
  have hu2 : ∀ b ∈ ascii "25015275", b ≠ 0 := nulFree_of_all _ (by decide)
  have hu3 : ∀ b ∈ ascii "1", b ≠ 0 := nulFree_of_all _ (by decide)
  have hfields : ∀ (m : Int) (p : StdString) (k : Nat) (r : HeaderRow), (∀ b ∈ p, b ≠ 0) →
      ∀ f ∈ [intString m, ascii "25015275", intString k, r.msgid.bytes, r.timestamp.bytes,
        r.status.bytes, p ++ r.from_.bytes, r.subject.bytes], ∀ b ∈ f, b ≠ 0 := by
    intro m p k r hp f hf b hb
    simp only [List.mem_cons, List.mem_singleton, List.not_mem_nil, or_false] at hf
    rcases hf with rfl | rfl | rfl | rfl | rfl | rfl | rfl | rfl
    · exact intString_nulFree _ b hb
    · exact hu2 b hb
    · exact intString_nulFree _ b hb
    · exact r.msgid.nulFree b hb
    · exact r.timestamp.nulFree b hb
    · exact r.status.nulFree b hb
    · rcases List.mem_append.mp hb with h | h
      · exact hp b h
      · exact r.from_.nulFree b h
    · exact r.subject.nulFree b hb
  have hbytes : ∀ (m : Int) (p : StdString) (k : Nat) (r : HeaderRow), (∀ b ∈ p, b ≠ 0) →
      headerPacket m p k r = some ⟨.OP_MailHeader,
        WireEncoder.encode [intString m, ascii "25015275", intString k, r.msgid.bytes,
          r.timestamp.bytes, r.status.bytes, p ++ r.from_.bytes, r.subject.bytes]⟩ := by
    intro m p k r hp
    rw [headerPacket_headerBytes]
    simp only [headerBytes, c_str_bytes_of_nulFree p hp, hu, Nat.sub_self, List.replicate_zero,
      List.append_nil]
  have hcount : ∀ (m : Int) (k : Nat),
      ∀ f ∈ [intString m, ascii "25015275", ascii "1", intString k], ∀ b ∈ f, b ≠ 0 := by
    intro m k f hf b hb
    simp only [List.mem_cons, List.mem_singleton, List.not_mem_nil, or_false] at hf
    rcases hf with rfl | rfl | rfl | rfl
    · exact intString_nulFree _ b hb
    · exact hu2 b hb
    · exact hu3 b hb
    · exact intString_nulFree _ b hb
  refine ⟨?_, ?_, ?_, ?_⟩
  · rw [headerCountPacket_encode]
    simp only [Option.map_some']
    have := WireEncoder.decode_encode _ (hcount mb n)
    simpa using this
  · rw [hbytes mb pre i row hpre]
    simp only [Option.map_some']
    have := WireEncoder.decode_encode _ (hfields mb pre i row hpre)
    simpa using this
  · intro mb2 pre2 i2 row2 hpre2 heq
    rw [hbytes mb pre i row hpre, hbytes mb2 pre2 i2 row2 hpre2] at heq
    have hb : WireEncoder.encode [intString mb, ascii "25015275", intString i, row.msgid.bytes,
          row.timestamp.bytes, row.status.bytes, pre ++ row.from_.bytes, row.subject.bytes]
        = WireEncoder.encode [intString mb2, ascii "25015275", intString i2, row2.msgid.bytes,
          row2.timestamp.bytes, row2.status.bytes, pre2 ++ row2.from_.bytes,
          row2.subject.bytes] := by
      injection heq with heq
      injection heq
    have hl := WireEncoder.encode_injective _ _ (hfields mb pre i row hpre)
      (hfields mb2 pre2 i2 row2 hpre2) hb
    refine ⟨hl, ?_, ?_⟩
    · exact intString_injective _ _ (by injection hl)
    · have h3 : intString (i : Int) = intString (i2 : Int) := by
        injection hl with _ hl
        injection hl with _ hl
        injection hl
      exact_mod_cast intString_injective _ _ h3
  · intro mb2 n2 heq
    rw [headerCountPacket_encode, headerCountPacket_encode] at heq
    have hb : WireEncoder.encode [intString mb, ascii "25015275", ascii "1", intString n]
        = WireEncoder.encode [intString mb2, ascii "25015275", ascii "1", intString n2] := by
      injection heq with heq
      injection heq
    have hl := WireEncoder.encode_injective _ _ (hcount mb n) (hcount mb2 n2) hb
    refine ⟨hl, ?_, ?_⟩
    · exact intString_injective _ _ (by injection hl)
    · have h4 : intString (n : Int) = intString (n2 : Int) := by
        injection hl with _ hl
        injection hl with _ hl
        injection hl with _ hl
        injection hl
      exact_mod_cast intString_injective _ _ h4

/-- Witness of C6: the count packet for one row and the header packet of the letter of `bobDb`. -/
theorem SendHeaders_packets_decode_witness :
    (headerCountPacket 3 1).map (fun p => WireEncoder.decode 4 p.pBuffer)
      = some (some [intString 3, ascii "25015275", ascii "1", intString (1 : Nat)]) ∧
    (headerPacket 3 (ascii "SOE.EQ.srv.") 0 bobsMail.toHeaderRow).map
        (fun p => WireEncoder.decode 8 p.pBuffer)
      = some (some [intString 3, ascii "25015275", intString (0 : Nat),
          bobsMail.toHeaderRow.msgid.bytes, bobsMail.toHeaderRow.timestamp.bytes,
          bobsMail.toHeaderRow.status.bytes,
          ascii "SOE.EQ.srv." ++ bobsMail.toHeaderRow.from_.bytes,
          bobsMail.toHeaderRow.subject.bytes]) :=
  ⟨(SendHeaders_packets_decode 3 (ascii "SOE.EQ.srv.") 1 0 bobsMail.toHeaderRow
      (nulFree_of_all _ (by decide))).1,
    (SendHeaders_packets_decode 3 (ascii "SOE.EQ.srv.") 1 0 bobsMail.toHeaderRow
      (nulFree_of_all _ (by decide))).2.1⟩

/-! ### `ExpireMail` and `SetMessageStatus` -/

theorem deleteMail_online (db : Database) (cond : MailRecord → Bool) :
    (db.deleteMail cond).online = db.online := by
  unfold Database.deleteMail
  split <;> rfl

theorem deleteMail_mail (db : Database) (cond : MailRecord → Bool) (h : db.online = true) :
    (db.deleteMail cond).mail = db.mail.filter (fun r => !cond r) := by
  unfold Database.deleteMail
  rw [if_pos h]

theorem ite_deleteMail_mail (db : Database) (c : Prop) [Decidable c] (cond : MailRecord → Bool)
    (h : db.online = true) :
    (if c then db.deleteMail cond else db).mail
      = db.mail.filter (fun r => !(decide c && cond r)) := by
  by_cases hc : c
  · simp [hc, deleteMail_mail, h]
  · simp [hc]

theorem ite_deleteMail_online (db : Database) (c : Prop) [Decidable c]
    (cond : MailRecord → Bool) :
    (if c then db.deleteMail cond else db).online = db.online := by
  by_cases hc : c
  · simp [hc, deleteMail_online]
  · simp [hc]

/-- With the store answering, `ExpireMail` keeps exactly the records that no enabled rule covers,
each rule with the clock reading of its own statement. -/
theorem ExpireMail_mail (db : Database) (rules : MailRules) (t1 t2 t3 : Int)
    (h : db.online = true) :
    (ExpireMail db rules t1 t2 t3).mail
      = db.mail.filter (fun r => !decide (
          (0 ≤ rules.ExpireTrash ∧ r.status = 4 ∧ r.timestamp < t1 - rules.ExpireTrash) ∨
          (0 ≤ rules.ExpireRead ∧ r.status = 3 ∧ r.timestamp < t2 - rules.ExpireRead) ∨
          (0 ≤ rules.ExpireUnread ∧ r.status = 1 ∧ r.timestamp < t3 - rules.ExpireUnread))) := by
  unfold ExpireMail
  rw [if_pos h]
  simp only []
  rw [ite_deleteMail_mail _ _ _ (by rw [ite_deleteMail_online, ite_deleteMail_online]; exact h),
    ite_deleteMail_mail _ _ _ (by rw [ite_deleteMail_online]; exact h),
    ite_deleteMail_mail _ _ _ h, List.filter_filter, List.filter_filter]
  apply List.filter_congr
  intro r _
  simp only [ge_iff_le, Bool.decide_or, Bool.decide_and, Bool.not_or, Bool.and_assoc]
  generalize (!(decide (0 ≤ rules.ExpireUnread) && (decide (r.status = 1)
    && decide (r.timestamp < t3 - rules.ExpireUnread)))) = u
  generalize (!(decide (0 ≤ rules.ExpireRead) && (decide (r.status = 3)
    && decide (r.timestamp < t2 - rules.ExpireRead)))) = v
  generalize (!(decide (0 ≤ rules.ExpireTrash) && (decide (r.status = 4)
    && decide (r.timestamp < t1 - rules.ExpireTrash)))) = w
  cases u <;> cases v <;> cases w <;> rfl

/-- C7: with the store answering, `ExpireMail` at the time `now` keeps exactly the records that no
enabled rule covers, in their order and as they were: a record goes if and only if it has
status 4 and a timestamp below `now - ExpireTrash` with `ExpireTrash >= 0`, or status 3 and a
timestamp below `now - ExpireRead` with `ExpireRead >= 0`, or status 1 and a timestamp below
`now - ExpireUnread` with `ExpireUnread >= 0`. -/
theorem ExpireMail_removes_exactly_the_expired (db : Database) (rules : MailRules) (now : Int)
    (h : db.online = true) :
    (ExpireMail db rules now now now).mail
      = db.mail.filter (fun r => !decide (
          (0 ≤ rules.ExpireTrash ∧ r.status = 4 ∧ r.timestamp < now - rules.ExpireTrash) ∨
          (0 ≤ rules.ExpireRead ∧ r.status = 3 ∧ r.timestamp < now - rules.ExpireRead) ∨
          (0 ≤ rules.ExpireUnread ∧ r.status = 1 ∧ r.timestamp < now - rules.ExpireUnread))) := by
  have hon2 : (if rules.ExpireTrash ≥ 0 then
      db.deleteMail (fun r => decide (r.status = 4 ∧ r.timestamp < now - rules.ExpireTrash))
      else db).online = true := by
    rw [ite_deleteMail_online]
    exact h
  unfold ExpireMail
  rw [if_pos h]
  simp only []
  rw [ite_deleteMail_mail _ _ _ (by rw [ite_deleteMail_online]; exact hon2),
    ite_deleteMail_mail _ _ _ hon2, ite_deleteMail_mail _ _ _ h, List.filter_filter,
    List.filter_filter]
  apply List.filter_congr
  intro r _
  by_cases hT : 0 ≤ rules.ExpireTrash <;> by_cases hR : 0 ≤ rules.ExpireRead <;>
    by_cases hU : 0 ≤ rules.ExpireUnread <;>
    by_cases h4 : r.status = 4 <;> by_cases h3 : r.status = 3 <;> by_cases h1 : r.status = 1 <;>
    simp [hT, hR, hU, h4, h3, h1]

/-- Witness of C7: at time 100 with `ExpireTrash` 10, `ExpireRead` off and `ExpireUnread` 50, the trash of time 10 and the unread letter of time 10 go; the trash of time 95, the read letter and the letter of status 2 stay. -/
theorem ExpireMail_removes_exactly_the_expired_witness :
    (ExpireMail (fixedDb none none
        [{ bobsMail with msgid := 1, status := 4, timestamp := 10 },
         { bobsMail with msgid := 2, status := 4, timestamp := 95 },
         { bobsMail with msgid := 3, status := 3, timestamp := 10 },
         { bobsMail with msgid := 4, status := 1, timestamp := 10 },
         { bobsMail with msgid := 5, status := 2, timestamp := 10 }])
        ⟨10, -1, 50⟩ 100 100 100).mail
      = [{ bobsMail with msgid := 2, status := 4, timestamp := 95 },
         { bobsMail with msgid := 3, status := 3, timestamp := 10 },
         { bobsMail with msgid := 5, status := 2, timestamp := 10 }] :=
  (ExpireMail_removes_exactly_the_expired _ ⟨10, -1, 50⟩ 100 rfl).trans (by decide)

/-- C8: with the store answering, `SetMessageStatus(m, 0)` leaves exactly the records whose
`msgid` is not m, so none with `msgid` m and none with a status it did not have; with another
status s it keeps every record in its place and writes s in the status of those with `msgid` m,
nothing else; either way the records with another `msgid` are what they were. -/
theorem SetMessageStatus_deletes_or_updates (db : Database) (m s : Int)
    (h : db.online = true) :
    (s = 0 → ∀ r, r ∈ (SetMessageStatus db m s).mail ↔ r ∈ db.mail ∧ (r.msgid : Int) ≠ m) ∧
    (s ≠ 0 → (SetMessageStatus db m s).mail.length = db.mail.length ∧
      ∀ i (h1 : i < (SetMessageStatus db m s).mail.length) (h2 : i < db.mail.length),
        (SetMessageStatus db m s).mail[i]
          = if (db.mail[i].msgid : Int) = m then { db.mail[i] with status := s }
            else db.mail[i]) ∧
    (SetMessageStatus db m s).mail.filter (fun r => decide ((r.msgid : Int) ≠ m))
      = db.mail.filter (fun r => decide ((r.msgid : Int) ≠ m)) := by
  refine ⟨?_, ?_, ?_⟩
  · intro hs r
    simp [SetMessageStatus, hs, deleteMail_mail, h]
  · intro hs
    simp [SetMessageStatus, hs, Database.updateStatus, h]
  · by_cases hs : s = 0
    · simp [SetMessageStatus, hs, deleteMail_mail, h, List.filter_filter]
    · simp only [SetMessageStatus, hs, if_false, Database.updateStatus, h, if_true]
      induction db.mail with
      | nil => rfl
      | cons r rs ih =>
        by_cases hr : (r.msgid : Int) = m
        · simpa [hr] using ih
        · simpa [hr] using ih

/-- Witness of C8: on `bobDb`, status 0 removes message 7, status 3 is written to message 7, and a change of message 8 leaves message 7 as it was. -/
theorem SetMessageStatus_deletes_or_updates_witness :
    (SetMessageStatus bobDb 7 0).mail = [] ∧
    (SetMessageStatus bobDb 7 3).mail = [{ bobsMail with status := 3 }] ∧
    (SetMessageStatus bobDb 8 3).mail.filter (fun r => decide ((r.msgid : Int) ≠ 8))
      = bobDb.mail.filter (fun r => decide ((r.msgid : Int) ≠ 8)) :=
  ⟨by decide, by decide, (SetMessageStatus_deletes_or_updates bobDb 8 3 rfl).2.2⟩

/-! ### `SendMail` -/

/-- When `FindCharacter` has no single row to read, it returns -1. -/
theorem FindCharacter_of_no_single_row (db : Database) (name : CStr)
    (h : ∀ row, db.selectCharacterId (db.RemoveApostrophes name) ≠ some [row]) :
    FindCharacter db name = -1 := by
  unfold FindCharacter
  split
  · rfl
  · next rows hrows =>
    split
    · next row => exact absurd hrows (h row)
    · rfl

/-- C9: when `FindCharacter` returns a value that is not positive for the normalised recipient
name, `SendMail` returns false and leaves the state as it was: the `mail` table, the
notifications and the counter `MailMessagesSent` are unchanged. -/
theorem SendMail_unknown_recipient (s : Server) (now : Int) (pre : StdString)
    (recipient from_ subject body recipientsString : StdString)
    (h : FindCharacter s.db (c_str (recipientCharacterName recipient)) ≤ 0) :
    (SendMail s now pre recipient from_ subject body recipientsString).1 = false ∧
    (SendMail s now pre recipient from_ subject body recipientsString).2.db.mail = s.db.mail ∧
    (SendMail s now pre recipient from_ subject body recipientsString).2.notifications
      = s.notifications ∧
    (SendMail s now pre recipient from_ subject body recipientsString).2.MailMessagesSent
      = s.MailMessagesSent := by
  unfold SendMail
  simp only [if_pos h, and_self]

/-- Witness of C9: no row for "Nobody", so `SendMail` returns false and the table stays as it was. -/
theorem SendMail_unknown_recipient_witness :
    FindCharacter (fixedDb none (some []) [bobsMail])
        (c_str (recipientCharacterName (ascii "nobody"))) = -1 ∧
    (SendMail ⟨fixedDb none (some []) [bobsMail], fun _ => none, [], 5⟩ 2000 (ascii "SOE.EQ.srv.")
        (ascii "nobody") (ascii "Alice") (ascii "Hi") (ascii "hello") (ascii "nobody")).1
      = false ∧
    (SendMail ⟨fixedDb none (some []) [bobsMail], fun _ => none, [], 5⟩ 2000 (ascii "SOE.EQ.srv.")
        (ascii "nobody") (ascii "Alice") (ascii "Hi") (ascii "hello")
        (ascii "nobody")).2.db.mail = [bobsMail] :=
  ⟨by decide,
    (SendMail_unknown_recipient ⟨fixedDb none (some []) [bobsMail], fun _ => none, [], 5⟩ 2000
      (ascii "SOE.EQ.srv.") (ascii "nobody") (ascii "Alice") (ascii "Hi") (ascii "hello")
      (ascii "nobody") (by decide)).1,
    (SendMail_unknown_recipient ⟨fixedDb none (some []) [bobsMail], fun _ => none, [], 5⟩ 2000
      (ascii "SOE.EQ.srv.") (ascii "nobody") (ascii "Alice") (ascii "Hi") (ascii "hello")
      (ascii "nobody") (by decide)).2.1⟩

theorem insertMail_eq (db : Database) (c now : Int) (from_ subject body to_ : StdString)
    (v : MailValues) (hon : db.online = true)
    (hread : db.insertInto (insertMailQuery c now (c_str from_) (c_str (DoEscapeString subject))
      (c_str (DoEscapeString body)) (c_str to_)) = some [v]) :
    db.insertMail c now from_ subject body to_
      = some ({ db with
                mail := db.mail ++ [{ msgid := db.AUTO_INCREMENT, charid := v.charid,
                                      timestamp := v.timestamp, from_ := v.from_,
                                      subject := v.subject, body := v.body, to_ := v.to_,
                                      status := v.status }]
                AUTO_INCREMENT := db.AUTO_INCREMENT + 1 }, db.AUTO_INCREMENT) := by
  unfold Database.insertMail
  rw [if_pos hon, hread]
  rfl

/-- Let the recipient resolve to the character id c > 0, let no record of `mail` have that
`charid`, and let the store read the statement of `SendMail` as the one row that the arguments
spell. Then `SendMail` returns true and appends exactly one record, with `charid` c, status 1,
timestamp `now`, the given subject and body and the next `msgid`; and for a client whose mailbox
name resolves to c, `SendHeaders` on the new state queues the count packet with the value 1 and
then one header packet, row index 0, whose message-id field is that `msgid`. -/
theorem SendMail_then_SendHeaders (s : Server) (now : Int) (pre : StdString)
    (recipient from_ subject body recipientsString : StdString) (c : Int) (f t : List Byte)
    (hc : FindCharacter s.db (c_str (recipientCharacterName recipient)) = c) (hpos : 0 < c)
    (hno : ∀ r ∈ s.db.mail, r.charid ≠ c)
    (hon : s.db.online = true)
    (hread : s.db.insertInto (insertMailQuery c now (c_str from_)
      (c_str (DoEscapeString subject)) (c_str (DoEscapeString body)) (c_str recipientsString))
      = some [⟨c, now, f, subject, body, t, 1⟩]) :
    (SendMail s now pre recipient from_ subject body recipientsString).1 = true ∧
    (SendMail s now pre recipient from_ subject body recipientsString).2.db.mail
      = s.db.mail ++ [{ msgid := s.db.AUTO_INCREMENT, charid := c, timestamp := now, from_ := f,
                        subject := subject, body := body, to_ := t, status := 1 }] ∧
    ∀ client : Client, FindCharacter s.db (c_str client.MailBoxName) = c →
      ∃ rest : List Byte,
        SendHeaders (SendMail s now pre recipient from_ subject body recipientsString).2.db
            pre client
          = some [⟨.OP_MailHeaderCount, WireEncoder.encode [intString client.GetMailBoxNumber,
                ascii "25015275", ascii "1", ascii "1"]⟩,
              ⟨.OP_MailHeader, WireEncoder.encode [intString client.GetMailBoxNumber,
                ascii "25015275", ascii "0", intString s.db.AUTO_INCREMENT] ++ rest⟩] := by
  have hsend : SendMail s now pre recipient from_ subject body recipientsString
      = (true, { s with
          db := { s.db with
            mail := s.db.mail ++ [{ msgid := s.db.AUTO_INCREMENT, charid := c, timestamp := now,
                                    from_ := f, subject := subject, body := body, to_ := t,
                                    status := 1 }]
            AUTO_INCREMENT := s.db.AUTO_INCREMENT + 1 }
          notifications :=
            match s.IsCharacterOnline (recipientCharacterName recipient) with
            | some (client, mailBoxNumber) =>
              s.notifications ++ [{ client := client, mailBoxNumber := mailBoxNumber,
                                    subject := subject, sender := pre ++ from_,
                                    messageID := s.db.AUTO_INCREMENT }]
            | none => s.notifications
          MailMessagesSent := (s.MailMessagesSent + 1) % 2 ^ 32 }) := by
    unfold SendMail
    simp only [hc, if_neg (not_le.mpr hpos), insertMail_eq s.db c now from_ subject body
      recipientsString ⟨c, now, f, subject, body, t, 1⟩ hon hread]
  rw [hsend]
  refine ⟨rfl, rfl, ?_⟩
  intro client hclient
  have hfilter : s.db.mail.filter (fun r => decide (r.charid = c)) = [] := by
    rw [List.filter_eq_nil_iff]
    intro r hr
    simpa using hno r hr
  have h0 : intString ((0 : Nat) : Int) = ascii "0" := by decide
  have h1 : intString ((1 : Nat) : Int) = ascii "1" := by decide
  have hu : intString unknownField2 = ascii "25015275" := by decide
  refine ⟨WireEncoder.encode [(c_str (intString now)).bytes, (c_str (intString 1)).bytes,
      (c_str pre).bytes ++ (c_str f).bytes, (c_str subject).bytes]
      ++ List.replicate (pre.length - (c_str pre).bytes.length) 0, ?_⟩
  have hid : 0 < FindCharacter s.db (c_str client.MailBoxName) := by
    rw [hclient]
    exact hpos
  have hsel : Database.selectHeaders
      { s.db with
        mail := s.db.mail ++ [⟨s.db.AUTO_INCREMENT, c, now, f, subject, body, t, 1⟩]
        AUTO_INCREMENT := s.db.AUTO_INCREMENT + 1 }
      (FindCharacter s.db (c_str client.MailBoxName))
      = some [MailRecord.toHeaderRow ⟨s.db.AUTO_INCREMENT, c, now, f, subject, body, t, 1⟩] := by
    rw [hclient]
    unfold Database.selectHeaders
    simp only [hon, if_true, List.filter_append, hfilter, List.nil_append]
    simp
  rw [SendHeaders_eq
    { s.db with
      mail := s.db.mail ++ [⟨s.db.AUTO_INCREMENT, c, now, f, subject, body, t, 1⟩]
      AUTO_INCREMENT := s.db.AUTO_INCREMENT + 1 }
    pre client _ hid hsel]
  simp only [headerPackets, headerPacket_headerBytes, Option.map_some', headerBytes,
    MailRecord.toHeaderRow, c_str_intString, List.length_singleton, h0, h1, hu]
  rw [← List.append_assoc, ← WireEncoder.encode_append]
  rfl

set_option maxRecDepth 100000 in
/-- The example of the specification: the mail from Alice to Bob, the character with id 42, at
time 2000; the store of `bobServer` reads the statement as the row it spells. -/
theorem SendMail_then_SendHeaders_witness :
    (SendMail bobServer 2000 (ascii "SOE.EQ.srv.") (ascii "Bob") (ascii "Alice") (ascii "Hi")
        (ascii "hello") (ascii "Bob")).1 = true ∧
    (SendMail bobServer 2000 (ascii "SOE.EQ.srv.") (ascii "Bob") (ascii "Alice") (ascii "Hi")
        (ascii "hello") (ascii "Bob")).2.db.mail
      = bobServer.db.mail ++ [⟨bobServer.db.AUTO_INCREMENT, 42, 2000, ascii "Alice", ascii "Hi",
          ascii "hello", ascii "Bob", 1⟩] ∧
    ∃ rest : List Byte,
      SendHeaders (SendMail bobServer 2000 (ascii "SOE.EQ.srv.") (ascii "Bob") (ascii "Alice")
          (ascii "Hi") (ascii "hello") (ascii "Bob")).2.db (ascii "SOE.EQ.srv.")
          ⟨ascii "Bob", 0⟩
        = some [⟨.OP_MailHeaderCount, WireEncoder.encode [intString 0,
              ascii "25015275", ascii "1", ascii "1"]⟩,
            ⟨.OP_MailHeader, WireEncoder.encode [intString 0,
              ascii "25015275", ascii "0", intString bobServer.db.AUTO_INCREMENT] ++ rest⟩] :=
  have h := SendMail_then_SendHeaders bobServer 2000 (ascii "SOE.EQ.srv.") (ascii "Bob")
    (ascii "Alice") (ascii "Hi") (ascii "hello") (ascii "Bob") 42 (ascii "Alice") (ascii "Bob")
    (by decide) (by decide) (fun r hr => absurd hr (List.not_mem_nil r)) rfl (by decide)
  ⟨h.1, h.2.1, h.2.2 ⟨ascii "Bob", 0⟩ (by decide)⟩


set_option maxRecDepth 100000 in
/-- C10 (code defect): `SendMail` to Bob, the character with id 42 and no mail, from Alice with
subject "Hi" and body "hello", at time 2000. With the to text `x', 4) #` the call returns true
and the one record it creates has status 4, not 1: the text closes the literal, gives the status
and comments out the rest of the statement. With the to text
`x', 1), ('42', 0, 'Eve', 'Gold', 'free', 'Bob', 1) #` the call returns true and creates two
records, and `SendHeaders` then queues the count packet with the value 2 and two header
packets. The same text as subject, which is escaped, is stored as it is in one record of
status 1. -/
theorem SendMail_reads_status_and_rows_from_the_to_text :
    (SendMail bobServer 2000 (ascii "SOE.EQ.srv.") (ascii "Bob") (ascii "Alice") (ascii "Hi")
        (ascii "hello") (ascii "x', 4) #")).1 = true ∧
    (SendMail bobServer 2000 (ascii "SOE.EQ.srv.") (ascii "Bob") (ascii "Alice") (ascii "Hi")
        (ascii "hello") (ascii "x', 4) #")).2.db.mail
      = [⟨1, 42, 2000, ascii "Alice", ascii "Hi", ascii "hello", ascii "x", 4⟩] ∧
    (SendMail bobServer 2000 (ascii "SOE.EQ.srv.") (ascii "Bob") (ascii "Alice") (ascii "Hi")
        (ascii "hello") (ascii "x', 1), ('42', 0, 'Eve', 'Gold', 'free', 'Bob', 1) #")).1
      = true ∧
    (SendMail bobServer 2000 (ascii "SOE.EQ.srv.") (ascii "Bob") (ascii "Alice") (ascii "Hi")
        (ascii "hello")
        (ascii "x', 1), ('42', 0, 'Eve', 'Gold', 'free', 'Bob', 1) #")).2.db.mail
      = [⟨1, 42, 2000, ascii "Alice", ascii "Hi", ascii "hello", ascii "x", 1⟩,
         ⟨2, 42, 0, ascii "Eve", ascii "Gold", ascii "free", ascii "Bob", 1⟩] ∧
    SendHeaders (SendMail bobServer 2000 (ascii "SOE.EQ.srv.") (ascii "Bob") (ascii "Alice")
        (ascii "Hi") (ascii "hello")
        (ascii "x', 1), ('42', 0, 'Eve', 'Gold', 'free', 'Bob', 1) #")).2.db
        (ascii "SOE.EQ.srv.") ⟨ascii "Bob", 3⟩
      = some [⟨.OP_MailHeaderCount, ascii "3\x0025015275\x001\x002\x00"⟩,
          ⟨.OP_MailHeader,
            ascii "3\x0025015275\x000\x001\x002000\x001\x00SOE.EQ.srv.Alice\x00Hi\x00"⟩,
          ⟨.OP_MailHeader,
            ascii "3\x0025015275\x001\x002\x000\x001\x00SOE.EQ.srv.Eve\x00Gold\x00"⟩] ∧
    (SendMail bobServer 2000 (ascii "SOE.EQ.srv.") (ascii "Bob") (ascii "Alice")
        (ascii "x', 4) #") (ascii "hello") (ascii "Bob")).2.db.mail
      = [⟨1, 42, 2000, ascii "Alice", ascii "x', 4) #", ascii "hello", ascii "Bob", 1⟩] := by
  decide

/-! ### The example store on the statement of `SendMail` -/

theorem dropPrefix_append (p rest : List Byte) : dropPrefix p (p ++ rest) = some rest := by
  induction p with
  | nil => cases rest <;> rfl
  | cons b bs ih => simp [dropPrefix, ih]

theorem lex_cons (m : LexMode) (b : Byte) (bs : List Byte) :
    lex m (b :: bs)
      = match m.step b with
        | none => none
        | some r => (lex r.2 bs).map (fun ts => r.1 ++ ts) := rfl

/-- Bytes other than the apostrophe and the backslash are read into a text literal as they
are. -/
theorem lex_inText_plain (t : List Byte) (h : ∀ b ∈ t, b ≠ 0x27 ∧ b ≠ 0x5C) (acc rest : List Byte) :
    lex (.inText acc) (t ++ rest) = lex (.inText (acc ++ t)) rest := by
  induction t generalizing acc with
  | nil => simp
  | cons b bs ih =>
    obtain ⟨h1, h2⟩ := h b (by simp)
    rw [List.cons_append, lex_cons]
    simp only [LexMode.step, if_neg h1, if_neg h2, List.nil_append]
    rw [Option.map_id', ih (fun x hx => h x (by simp [hx]))]
    simp

theorem lex_inText_byte (b : Byte) (h1 : b ≠ 0x27) (h2 : b ≠ 0x5C) (acc rest : List Byte) :
    lex (.inText acc) (b :: rest) = lex (.inText (acc ++ [b])) rest := by
  rw [lex_cons]
  simp only [LexMode.step, if_neg h1, if_neg h2, List.nil_append]
  rw [Option.map_id']

theorem lex_inText_backslash (b : Byte) (acc rest : List Byte) :
    lex (.inText acc) (0x5C :: b :: rest) = lex (.inText (acc ++ unescape b)) rest := by
  have h1 : (LexMode.inText acc).step 0x5C = some ([], .afterBackslash acc) := by
    simp [LexMode.step]
  have h2 : (LexMode.afterBackslash acc).step b = some ([], .inText (acc ++ unescape b)) := rfl
  rw [lex_cons, h1]
  simp only [List.nil_append]
  rw [lex_cons, h2]
  simp

theorem DoEscapeString_cons (b : Byte) (bs : List Byte) :
    DoEscapeString (b :: bs)
      = (if b = 0x00 then [0x5C, 0x30]
         else if b = 0x0A then [0x5C, 0x6E]
         else if b = 0x0D then [0x5C, 0x72]
         else if b = 0x1A then [0x5C, 0x5A]
         else if b = 0x5C ∨ b = 0x27 ∨ b = 0x22 then [0x5C, b]
         else [b]) ++ DoEscapeString bs := rfl

/-- What `DoEscapeString` wrote is read back into a text literal as the bytes it was given. -/
theorem lex_inText_escaped (s : List Byte) (acc rest : List Byte) :
    lex (.inText acc) (DoEscapeString s ++ rest) = lex (.inText (acc ++ s)) rest := by
  induction s generalizing acc with
  | nil => simp [DoEscapeString]
  | cons b bs ih =>
    have hstep : lex (.inText acc) (DoEscapeString (b :: bs) ++ rest)
        = lex (.inText (acc ++ [b])) (DoEscapeString bs ++ rest) := by
      rw [DoEscapeString_cons]
      by_cases h0 : b = 0x00
      · subst h0
        rw [if_pos rfl]
        simp only [List.cons_append, List.nil_append, List.append_assoc]
        rw [lex_inText_backslash]
        have : unescape 0x30 = [0x00] := by decide
        rw [this]
      by_cases h1 : b = 0x0A
      · subst h1
        rw [if_neg (by decide), if_pos rfl]
        simp only [List.cons_append, List.nil_append, List.append_assoc]
        rw [lex_inText_backslash]
        have : unescape 0x6E = [0x0A] := by decide
        rw [this]
      by_cases h2 : b = 0x0D
      · subst h2
        rw [if_neg (by decide), if_neg (by decide), if_pos rfl]
        simp only [List.cons_append, List.nil_append, List.append_assoc]
        rw [lex_inText_backslash]
        have : unescape 0x72 = [0x0D] := by decide
        rw [this]
      by_cases h3 : b = 0x1A
      · subst h3
        rw [if_neg (by decide), if_neg (by decide), if_neg (by decide), if_pos rfl]
        simp only [List.cons_append, List.nil_append, List.append_assoc]
        rw [lex_inText_backslash]
        have : unescape 0x5A = [0x1A] := by decide
        rw [this]
      rw [if_neg h0, if_neg h1, if_neg h2, if_neg h3]
      by_cases h4 : b = 0x5C ∨ b = 0x27 ∨ b = 0x22
      · rw [if_pos h4]
        simp only [List.cons_append, List.nil_append, List.append_assoc]
        rw [lex_inText_backslash]
        have : unescape b = [b] := by
          rcases h4 with rfl | rfl | rfl <;> decide
        rw [this]
      · rw [if_neg h4]
        simp only [List.cons_append, List.nil_append, List.append_assoc]
        rw [lex_inText_byte b (fun e => h4 (Or.inr (Or.inl e))) (fun e => h4 (Or.inl e))]
    rw [hstep, ih]
    simp

theorem DoEscapeString_nulFree (s : List Byte) : ∀ b ∈ DoEscapeString s, b ≠ 0 := by
  induction s with
  | nil => simp [DoEscapeString]
  | cons c cs ih =>
    intro b hb
    unfold DoEscapeString at hb
    rcases List.mem_append.mp hb with hb | hb
    · intro e
      subst e
      split at hb
      · simp at hb
      split at hb
      · simp at hb
      split at hb
      · simp at hb
      split at hb
      · simp at hb
      split at hb
      · next h0 _ _ _ _ =>
        simp at hb
        exact h0 hb.symm
      · next h0 _ _ _ _ =>
        simp at hb
        exact h0 hb.symm
    · exact ih b hb

theorem isdigit_digit (n : Nat) : isdigit (digit n) = true := by
  have hv := digit_val n
  have hlt : n % 10 < 10 := Nat.mod_lt _ (by decide)
  simp only [isdigit, hv, decide_eq_true_eq]
  omega

theorem natDigitsAux_isdigit (fuel n : Nat) (acc : List Byte)
    (h : ∀ b ∈ acc, isdigit b = true) : ∀ b ∈ natDigitsAux fuel n acc, isdigit b = true := by
  induction fuel generalizing n acc with
  | zero => simpa [natDigitsAux] using h
  | succ fuel ih =>
    have hacc : ∀ b ∈ digit n :: acc, isdigit b = true := by
      intro b hb
      rcases List.mem_cons.mp hb with rfl | hb
      · exact isdigit_digit n
      · exact h b hb
    unfold natDigitsAux
    split
    · exact hacc
    · exact ih _ _ hacc

theorem natDigits_isdigit (n : Nat) : ∀ b ∈ natDigits n, isdigit b = true :=
  natDigitsAux_isdigit _ _ _ (by simp)

set_option maxRecDepth 100000 in
theorem stepBetween_digit : ∀ b : Byte, isdigit b = true →
    stepBetween b = some ([], .inNumber [b]) := by
  decide

set_option maxRecDepth 100000 in
theorem isdigit_plain : ∀ b : Byte, isdigit b = true → b ≠ 0x27 ∧ b ≠ 0x5C ∧ b ≠ 0x2D := by
  decide

theorem lex_inNumber_digits (ds : List Byte) (h : ∀ b ∈ ds, isdigit b = true)
    (acc rest : List Byte) :
    lex (.inNumber acc) (ds ++ rest) = lex (.inNumber (acc ++ ds)) rest := by
  induction ds generalizing acc with
  | nil => simp
  | cons b bs ih =>
    have hb : isdigit b = true := h b (by simp)
    have hs : (LexMode.inNumber acc).step b = some ([], .inNumber (acc ++ [b])) := by
      simp only [LexMode.step, hb, if_true]
    rw [List.cons_append, lex_cons, hs]
    simp only [List.nil_append]
    rw [Option.map_id', ih (fun x hx => h x (by simp [hx]))]
    simp

/-- A number that `%i` printed is read as a number literal. -/
theorem lex_between_intString (i : Int) (rest : List Byte) :
    lex .between (intString i ++ rest) = lex (.inNumber (intString i)) rest := by
  cases i with
  | ofNat n =>
    obtain ⟨m, tail, hm⟩ := natDigitsAux_head n n []
    have hd := natDigits_isdigit n
    have e : intString (Int.ofNat n) = digit m :: tail := hm
    rw [natDigits, hm] at hd
    have hs : LexMode.between.step (digit m) = some ([], .inNumber [digit m]) :=
      stepBetween_digit _ (isdigit_digit m)
    rw [e, List.cons_append, lex_cons, hs]
    simp only [List.nil_append]
    rw [Option.map_id', lex_inNumber_digits tail (fun b hb => hd b (by simp [hb]))]
    simp
  | negSucc n =>
    have e : intString (Int.negSucc n) = 0x2D :: natDigits (n + 1) := rfl
    have hs : LexMode.between.step 0x2D = some ([], .inNumber [0x2D]) := by decide
    rw [e, List.cons_append, lex_cons, hs]
    simp only [List.nil_append]
    rw [Option.map_id', lex_inNumber_digits _ (natDigits_isdigit (n + 1))]
    simp

theorem numberToken_intString (i : Int) : numberToken (intString i) = some (.number i) := by
  have hne : intString i ≠ [0x2D] := by
    cases i with
    | ofNat n =>
      obtain ⟨m, tail, hm⟩ := natDigitsAux_head n n []
      have e : intString (Int.ofNat n) = digit m :: tail := hm
      rw [e]
      intro h
      have h1 : digit m = 0x2D := (List.cons.inj h).1
      exact (isdigit_plain _ (isdigit_digit m)).2.2 h1
    | negSucc n =>
      have e : intString (Int.negSucc n) = 0x2D :: natDigits (n + 1) := rfl
      obtain ⟨m, tail, hm⟩ := natDigitsAux_head (n + 1) (n + 1) []
      rw [e, natDigits, hm]
      intro h
      simp at h
  unfold numberToken
  rw [if_neg hne, atoi_intString]

/-- The bytes of a number that `%i` printed: none is an apostrophe or a backslash. -/
theorem intString_plain (i : Int) : ∀ b ∈ intString i, b ≠ 0x27 ∧ b ≠ 0x5C := by
  cases i with
  | ofNat n =>
    intro b hb
    have := isdigit_plain b (natDigits_isdigit n b hb)
    exact ⟨this.1, this.2.1⟩
  | negSucc n =>
    intro b hb
    rcases List.mem_cons.mp hb with rfl | hb
    · decide
    · have := isdigit_plain b (natDigits_isdigit (n + 1) b hb)
      exact ⟨this.1, this.2.1⟩

theorem lex_open (rest : List Byte) :
    lex .between (0x28 :: 0x27 :: rest)
      = (lex (.inText []) rest).map (fun ts => SqlToken.lparen :: ts) := by
  have h1 : LexMode.between.step 0x28 = some ([.lparen], .between) := by decide
  have h2 : LexMode.between.step 0x27 = some ([], .inText []) := by decide
  rw [lex_cons, h1]
  simp only []
  rw [lex_cons, h2]
  simp [Option.map_map, Function.comp]

theorem lex_text_end (acc rest : List Byte) :
    lex (.inText acc) (0x27 :: 0x2C :: 0x20 :: rest)
      = (lex .between rest).map (fun ts => SqlToken.text acc :: SqlToken.comma :: ts) := by
  have h1 : (LexMode.inText acc).step 0x27 = some ([], .afterQuote acc) := by
    simp [LexMode.step]
  have h2 : (LexMode.afterQuote acc).step 0x2C = some ([.text acc, .comma], .between) := by
    have : stepBetween 0x2C = some ([.comma], .between) := by decide
    simp [LexMode.step, this]
  have h3 : LexMode.between.step 0x20 = some ([], .between) := by decide
  rw [lex_cons, h1]
  simp only []
  rw [lex_cons, h2]
  simp only []
  rw [lex_cons, h3]
  simp [Option.map_map, Function.comp]
  rfl

theorem lex_text_start (rest : List Byte) :
    lex .between (0x27 :: rest) = lex (.inText []) rest := by
  have h : LexMode.between.step 0x27 = some ([], .inText []) := by decide
  rw [lex_cons, h]
  simp

theorem lex_number_end (i : Int) (rest : List Byte) :
    lex (.inNumber (intString i)) (0x2C :: 0x20 :: rest)
      = (lex .between rest).map (fun ts => SqlToken.number i :: SqlToken.comma :: ts) := by
  have h1 : (LexMode.inNumber (intString i)).step 0x2C
      = some ([.number i, .comma], .between) := by
    have hd : isdigit 0x2C = false := by decide
    have hs : stepBetween 0x2C = some ([.comma], .between) := by decide
    simp [LexMode.step, hd, hs, numberToken_intString]
  have h2 : LexMode.between.step 0x20 = some ([], .between) := by decide
  rw [lex_cons, h1]
  simp only []
  rw [lex_cons, h2]
  simp [Option.map_map, Function.comp]

theorem lex_last (acc : List Byte) :
    lex (.inText acc) [0x27, 0x2C, 0x20, 0x31, 0x29]
      = some [.text acc, .comma, .number 1, .rparen] := by
  have h : lex .between [0x31, 0x29] = some [.number 1, .rparen] := by decide
  rw [lex_text_end, h]
  rfl

set_option maxRecDepth 100000 in
theorem insertMailQuery_eq (c now : Int) (from_ escSubject escBody to_ : CStr) :
    insertMailQuery c now from_ escSubject escBody to_
      = ascii "INSERT INTO `mail` (`charid`, `timestamp`, `from`, `subject`, `body`, `to`, `status`) VALUES "
        ++ (0x28 :: 0x27 :: (intString c ++ (0x27 :: 0x2C :: 0x20 :: (intString now
        ++ (0x2C :: 0x20 :: 0x27 :: (from_.bytes ++ (0x27 :: 0x2C :: 0x20 :: 0x27 ::
          (escSubject.bytes ++ (0x27 :: 0x2C :: 0x20 :: 0x27 :: (escBody.bytes
        ++ (0x27 :: 0x2C :: 0x20 :: 0x27 :: (to_.bytes
        ++ [0x27, 0x2C, 0x20, 0x31, 0x29])))))))))))) := by
  have hA : ascii "INSERT INTO `mail` (`charid`, `timestamp`, `from`, `subject`, `body`, `to`, `status`) VALUES ('"
      = ascii "INSERT INTO `mail` (`charid`, `timestamp`, `from`, `subject`, `body`, `to`, `status`) VALUES "
        ++ [0x28, 0x27] := by decide
  have hB : ascii "', " = [0x27, 0x2C, 0x20] := by decide
  have hC : ascii ", '" = [0x2C, 0x20, 0x27] := by decide
  have hD : ascii "', '" = [0x27, 0x2C, 0x20, 0x27] := by decide
  have hF : ascii ")" = [0x29] := by decide
  have h1 : intString 1 = [0x31] := by decide
  unfold insertMailQuery
  rw [hA, hB, hC, hD, hF, h1]
  simp only [List.append_assoc, List.cons_append, List.nil_append]

/-- The example store reads the statement of `SendMail` as the one row that the arguments spell,
whenever the `from` and the `to` text have no apostrophe and no backslash; subject and body may
be any bytes. -/
theorem readInsert_insertMailQuery (c now : Int) (from_ to_ : CStr) (subject body : List Byte)
    (hf : ∀ b ∈ from_.bytes, b ≠ 0x27 ∧ b ≠ 0x5C) (ht : ∀ b ∈ to_.bytes, b ≠ 0x27 ∧ b ≠ 0x5C) :
    readInsert (insertMailQuery c now from_ (c_str (DoEscapeString subject))
        (c_str (DoEscapeString body)) to_)
      = some [⟨c, now, from_.bytes, subject, body, to_.bytes, 1⟩] := by
  have hlex : lex .between (0x28 :: 0x27 :: (intString c ++ (0x27 :: 0x2C :: 0x20 ::
      (intString now ++ (0x2C :: 0x20 :: 0x27 :: (from_.bytes ++ (0x27 :: 0x2C :: 0x20 :: 0x27 ::
      (DoEscapeString subject ++ (0x27 :: 0x2C :: 0x20 :: 0x27 :: (DoEscapeString body
      ++ (0x27 :: 0x2C :: 0x20 :: 0x27 :: (to_.bytes
      ++ [0x27, 0x2C, 0x20, 0x31, 0x29]))))))))))))
      = some [.lparen, .text (intString c), .comma, .number now, .comma, .text from_.bytes,
          .comma, .text subject, .comma, .text body, .comma, .text to_.bytes, .comma,
          .number 1, .rparen] := by
    rw [lex_open, lex_inText_plain _ (intString_plain c), lex_text_end, lex_between_intString,
      lex_number_end, lex_text_start, lex_inText_plain _ hf, lex_text_end, lex_text_start,
      lex_inText_escaped, lex_text_end, lex_text_start, lex_inText_escaped, lex_text_end,
      lex_text_start, lex_inText_plain _ ht, lex_last]
    simp
  rw [insertMailQuery_eq, c_str_bytes_of_nulFree _ (DoEscapeString_nulFree subject),
    c_str_bytes_of_nulFree _ (DoEscapeString_nulFree body)]
  unfold readInsert
  rw [dropPrefix_append]
  simp only [hlex]
  simp [tuples, allRows, MailValues.ofTuple, SqlToken.toInt, SqlToken.toText, atoi_intString]

/-- With the example store, and a `from` and a `to` text that have no apostrophe and no
backslash in front of their NUL, `SendMail` does what `SendMail_then_SendHeaders` says: it
returns true and appends exactly one record, with status 1 and the texts as given, and
`SendHeaders` then queues the count packet with the value 1 and one header packet with the new
`msgid`. -/
theorem SendMail_of_plain_from_and_to (s : Server) (now : Int) (pre : StdString)
    (recipient from_ subject body recipientsString : StdString) (c : Int)
    (hc : FindCharacter s.db (c_str (recipientCharacterName recipient)) = c) (hpos : 0 < c)
    (hno : ∀ r ∈ s.db.mail, r.charid ≠ c)
    (hon : s.db.online = true) (hstore : s.db.insertInto = readInsert)
    (hf : ∀ b ∈ (c_str from_).bytes, b ≠ 0x27 ∧ b ≠ 0x5C)
    (ht : ∀ b ∈ (c_str recipientsString).bytes, b ≠ 0x27 ∧ b ≠ 0x5C) :
    (SendMail s now pre recipient from_ subject body recipientsString).1 = true ∧
    (SendMail s now pre recipient from_ subject body recipientsString).2.db.mail
      = s.db.mail ++ [{ msgid := s.db.AUTO_INCREMENT, charid := c, timestamp := now,
                        from_ := (c_str from_).bytes, subject := subject, body := body,
                        to_ := (c_str recipientsString).bytes, status := 1 }] ∧
    ∀ client : Client, FindCharacter s.db (c_str client.MailBoxName) = c →
      ∃ rest : List Byte,
        SendHeaders (SendMail s now pre recipient from_ subject body recipientsString).2.db
            pre client
          = some [⟨.OP_MailHeaderCount, WireEncoder.encode [intString client.GetMailBoxNumber,
                ascii "25015275", ascii "1", ascii "1"]⟩,
              ⟨.OP_MailHeader, WireEncoder.encode [intString client.GetMailBoxNumber,
                ascii "25015275", ascii "0", intString s.db.AUTO_INCREMENT] ++ rest⟩] :=
  SendMail_then_SendHeaders s now pre recipient from_ subject body recipientsString c
    (c_str from_).bytes (c_str recipientsString).bytes hc hpos hno hon
    (by rw [hstore]; exact readInsert_insertMailQuery c now _ _ subject body hf ht)

/-! ### Sequences of mail operations -/

theorem ExpireMail_online (db : Database) (rules : MailRules) (t1 t2 t3 : Int) :
    (ExpireMail db rules t1 t2 t3).online = db.online := by
  unfold ExpireMail
  split
  · simp only []
    split <;> split <;> split <;> simp only [deleteMail_online]
  · rfl

/-- C12 (counterexample): a trashed letter of time 50 with `ExpireTrash` 10 stays in a run that
reads the clock at 60 and goes in the next run, which reads it at 61: the table after the second
run is not the table after the first. -/
theorem ExpireMail_at_a_later_reading :
    (ExpireMail (fixedDb none none [{ bobsMail with status := 4, timestamp := 50 }])
      ⟨10, -1, -1⟩ 60 60 60).mail = [{ bobsMail with status := 4, timestamp := 50 }] ∧
    (ExpireMail (ExpireMail (fixedDb none none [{ bobsMail with status := 4, timestamp := 50 }])
      ⟨10, -1, -1⟩ 60 60 60) ⟨10, -1, -1⟩ 61 61 61).mail = [] ∧
    (ExpireMail (ExpireMail (fixedDb none none [{ bobsMail with status := 4, timestamp := 50 }])
      ⟨10, -1, -1⟩ 60 60 60) ⟨10, -1, -1⟩ 61 61 61).mail
      ≠ (ExpireMail (fixedDb none none [{ bobsMail with status := 4, timestamp := 50 }])
      ⟨10, -1, -1⟩ 60 60 60).mail := by
  decide

/-- C12 (amended): for every mail table and every retention configuration, with no change of the
table between the two runs: a second `ExpireMail` that reads the same clock values as the first
leaves the table as the first left it; and a second `ExpireMail` that reads later clock values
leaves the table as a single run at those later values does, so what it removes is what has
passed its retention window between the two runs. -/
theorem ExpireMail_twice (db : Database) (rules : MailRules) (t1 t2 t3 u1 u2 u3 : Int)
    (h1 : t1 ≤ u1) (h2 : t2 ≤ u2) (h3 : t3 ≤ u3) :
    (ExpireMail (ExpireMail db rules t1 t2 t3) rules t1 t2 t3).mail
      = (ExpireMail db rules t1 t2 t3).mail ∧
    (ExpireMail (ExpireMail db rules t1 t2 t3) rules u1 u2 u3).mail
      = (ExpireMail db rules u1 u2 u3).mail := by
  by_cases h : db.online = true
  · have h' : (ExpireMail db rules t1 t2 t3).online = true := by
      rw [ExpireMail_online]
      exact h
    constructor
    · rw [ExpireMail_mail _ rules t1 t2 t3 h', ExpireMail_mail db rules t1 t2 t3 h,
        List.filter_filter]
      apply List.filter_congr
      intro r _
      exact Bool.and_self _
    · rw [ExpireMail_mail _ rules u1 u2 u3 h', ExpireMail_mail db rules t1 t2 t3 h,
        ExpireMail_mail db rules u1 u2 u3 h, List.filter_filter]
      apply List.filter_congr
      intro r _
      by_cases hu : (0 ≤ rules.ExpireTrash ∧ r.status = 4 ∧ r.timestamp < u1 - rules.ExpireTrash) ∨
          (0 ≤ rules.ExpireRead ∧ r.status = 3 ∧ r.timestamp < u2 - rules.ExpireRead) ∨
          (0 ≤ rules.ExpireUnread ∧ r.status = 1 ∧ r.timestamp < u3 - rules.ExpireUnread)
      · simp only [hu, decide_True, Bool.not_true, Bool.false_and]
      · have ht : ¬ ((0 ≤ rules.ExpireTrash ∧ r.status = 4 ∧ r.timestamp < t1 - rules.ExpireTrash) ∨
            (0 ≤ rules.ExpireRead ∧ r.status = 3 ∧ r.timestamp < t2 - rules.ExpireRead) ∨
            (0 ≤ rules.ExpireUnread ∧ r.status = 1 ∧ r.timestamp < t3 - rules.ExpireUnread)) := by
          intro ht
          apply hu
          rcases ht with ⟨a, b, c⟩ | ⟨a, b, c⟩ | ⟨a, b, c⟩
          · exact Or.inl ⟨a, b, by omega⟩
          · exact Or.inr (Or.inl ⟨a, b, by omega⟩)
          · exact Or.inr (Or.inr ⟨a, b, by omega⟩)
        simp only [hu, ht, decide_False, Bool.not_false, Bool.and_self]
  · have h' : ¬ (ExpireMail db rules t1 t2 t3).online = true := by
      rw [ExpireMail_online]
      exact h
    have e1 : ∀ (d : Database) (a b c : Int), ¬ d.online = true → ExpireMail d rules a b c = d := by
      intro d a b c hd
      unfold ExpireMail
      rw [if_neg hd]
    rw [e1 _ _ _ _ h', e1 _ _ _ _ h', e1 _ _ _ _ h, e1 _ _ _ _ h]
    exact ⟨rfl, rfl⟩

/-- Witness of C12 (amended): five letters, `ExpireTrash` 10, `ExpireRead` off and `ExpireUnread`
50; a run at the clock value 100 and a second at 100 again, or at 160. -/
theorem ExpireMail_twice_witness :
    (ExpireMail (ExpireMail (fixedDb none none
        [{ bobsMail with msgid := 1, status := 4, timestamp := 10 },
         { bobsMail with msgid := 2, status := 4, timestamp := 95 },
         { bobsMail with msgid := 3, status := 3, timestamp := 10 },
         { bobsMail with msgid := 4, status := 1, timestamp := 10 },
         { bobsMail with msgid := 5, status := 1, timestamp := 100 }])
        ⟨10, -1, 50⟩ 100 100 100) ⟨10, -1, 50⟩ 100 100 100).mail
      = (ExpireMail (fixedDb none none
        [{ bobsMail with msgid := 1, status := 4, timestamp := 10 },
         { bobsMail with msgid := 2, status := 4, timestamp := 95 },
         { bobsMail with msgid := 3, status := 3, timestamp := 10 },
         { bobsMail with msgid := 4, status := 1, timestamp := 10 },
         { bobsMail with msgid := 5, status := 1, timestamp := 100 }])
        ⟨10, -1, 50⟩ 100 100 100).mail ∧
    (ExpireMail (ExpireMail (fixedDb none none
        [{ bobsMail with msgid := 1, status := 4, timestamp := 10 },
         { bobsMail with msgid := 2, status := 4, timestamp := 95 },
         { bobsMail with msgid := 3, status := 3, timestamp := 10 },
         { bobsMail with msgid := 4, status := 1, timestamp := 10 },
         { bobsMail with msgid := 5, status := 1, timestamp := 100 }])
        ⟨10, -1, 50⟩ 100 100 100) ⟨10, -1, 50⟩ 160 160 160).mail
      = (ExpireMail (fixedDb none none
        [{ bobsMail with msgid := 1, status := 4, timestamp := 10 },
         { bobsMail with msgid := 2, status := 4, timestamp := 95 },
         { bobsMail with msgid := 3, status := 3, timestamp := 10 },
         { bobsMail with msgid := 4, status := 1, timestamp := 10 },
         { bobsMail with msgid := 5, status := 1, timestamp := 100 }])
        ⟨10, -1, 50⟩ 160 160 160).mail :=
  ExpireMail_twice _ ⟨10, -1, 50⟩ 100 100 100 160 160 160 (by decide) (by decide) (by decide)

/-! ### `GetFriendsAndIgnore` -/

theorem friendsAndIgnoreLoop_eq (rows : List FriendRow) (friends ignorees : List StdString) :
    friendsAndIgnoreLoop rows friends ignorees
      = (friends ++ (rows.filter (fun row => decide (atoi row.type_.bytes ≠ 0))).map
            (fun row => row.name.bytes),
         ignorees ++ (rows.filter (fun row => decide (atoi row.type_.bytes = 0))).map
            (fun row => row.name.bytes)) := by
  induction rows generalizing friends ignorees with
  | nil => simp [friendsAndIgnoreLoop]
  | cons row rows ih =>
    by_cases h : atoi row.type_.bytes = 0
    · simp [friendsAndIgnoreLoop, h, ih]
    · simp [friendsAndIgnoreLoop, h, ih]

/-- A row of a kind other than 0 and 1, which the data model of the specification does not
have, goes to `friends`: of the rows (1, Alice), (0, Mallory), (2, Eve), `friends` gets Alice and
Eve. -/
theorem GetFriendsAndIgnore_puts_kind_two_in_friends :
    GetFriendsAndIgnore
        (fun _ => some [⟨lit "1", lit "Alice"⟩, ⟨lit "0", lit "Mallory"⟩, ⟨lit "2", lit "Eve"⟩])
        42 [] []
      = ([ascii "Alice", ascii "Eve"], [ascii "Mallory"]) ∧
    ([(⟨lit "1", lit "Alice"⟩ : FriendRow), ⟨lit "0", lit "Mallory"⟩,
        ⟨lit "2", lit "Eve"⟩].filter (fun row => decide (atoi row.type_.bytes = 1))).map
          (fun row => row.name.bytes)
      = [ascii "Alice"] := by
  decide

/-- A failed query leaves `friends` and `ignorees` as they were. -/
theorem GetFriendsAndIgnore_of_failed_query (selectFriends : Int → Option (List FriendRow))
    (charID : Int) (friends ignorees : List StdString) (hq : selectFriends charID = none) :
    GetFriendsAndIgnore selectFriends charID friends ignorees = (friends, ignorees) := by
  unfold GetFriendsAndIgnore
  rw [hq]

/-- For every row list returned by the store, `GetFriendsAndIgnore` appends to `ignorees` the
names of the rows whose type reads as 0 and to `friends` the names of all the other rows, each in
the order of the rows; when every type reads as 0 or 1, `friends` gets exactly the names of the
rows whose type reads as 1. -/
theorem GetFriendsAndIgnore_partitions_by_zero (selectFriends : Int → Option (List FriendRow))
    (charID : Int) (friends ignorees : List StdString) (rows : List FriendRow)
    (hq : selectFriends charID = some rows) :
    GetFriendsAndIgnore selectFriends charID friends ignorees
      = (friends ++ (rows.filter (fun row => decide (atoi row.type_.bytes ≠ 0))).map
            (fun row => row.name.bytes),
         ignorees ++ (rows.filter (fun row => decide (atoi row.type_.bytes = 0))).map
            (fun row => row.name.bytes)) ∧
    ((∀ row ∈ rows, atoi row.type_.bytes = 0 ∨ atoi row.type_.bytes = 1) →
      (GetFriendsAndIgnore selectFriends charID friends ignorees).1
        = friends ++ (rows.filter (fun row => decide (atoi row.type_.bytes = 1))).map
            (fun row => row.name.bytes)) := by
  have hmain : GetFriendsAndIgnore selectFriends charID friends ignorees
      = (friends ++ (rows.filter (fun row => decide (atoi row.type_.bytes ≠ 0))).map
            (fun row => row.name.bytes),
         ignorees ++ (rows.filter (fun row => decide (atoi row.type_.bytes = 0))).map
            (fun row => row.name.bytes)) := by
    unfold GetFriendsAndIgnore
    rw [hq]
    exact friendsAndIgnoreLoop_eq rows friends ignorees
  refine ⟨hmain, ?_⟩
  intro hrows
  rw [hmain]
  have hf : rows.filter (fun row => decide (atoi row.type_.bytes ≠ 0))
      = rows.filter (fun row => decide (atoi row.type_.bytes = 1)) := by
    apply List.filter_congr
    intro row hrow
    rcases hrows row hrow with h | h <;> simp [h]
  rw [hf]

/-- The rows (1, Alice), (0, Mallory), (2, Eve), appended to a list of friends that has Bob
already. -/
theorem GetFriendsAndIgnore_partitions_by_zero_witness :
    GetFriendsAndIgnore
        (fun _ => some [⟨lit "1", lit "Alice"⟩, ⟨lit "0", lit "Mallory"⟩, ⟨lit "2", lit "Eve"⟩])
        42 [ascii "Bob"] []
      = ([ascii "Bob"] ++ ([(⟨lit "1", lit "Alice"⟩ : FriendRow), ⟨lit "0", lit "Mallory"⟩,
            ⟨lit "2", lit "Eve"⟩].filter (fun row => decide (atoi row.type_.bytes ≠ 0))).map
              (fun row => row.name.bytes),
         [] ++ ([(⟨lit "1", lit "Alice"⟩ : FriendRow), ⟨lit "0", lit "Mallory"⟩,
            ⟨lit "2", lit "Eve"⟩].filter (fun row => decide (atoi row.type_.bytes = 0))).map
              (fun row => row.name.bytes)) :=
  (GetFriendsAndIgnore_partitions_by_zero _ 42 [ascii "Bob"] [] _ rfl).1

theorem FriendEntry.atoi_type (e : FriendEntry) : atoi e.toFriendRow.type_.bytes = e.type_ := by
  simp only [FriendEntry.toFriendRow, c_str_intString, atoi_intString]

/-- C13: for every list of `friends` rows returned by the store, each of kind Ignore (0) or
Friend (1), `GetFriendsAndIgnore` appends to `ignorees` exactly the names of the rows of kind 0
and to `friends` exactly the names of the rows of kind 1, each in the order of the rows; every
row is of one of the two kinds, and so lands in exactly one of the two lists. -/
theorem GetFriendsAndIgnore_partitions_by_kind
    (selectFriends : Int → Option (List FriendRow)) (charID : Int)
    (friends ignorees : List StdString) (entries : List FriendEntry)
    (hq : selectFriends charID = some (entries.map FriendEntry.toFriendRow))
    (hkind : ∀ e ∈ entries, e.type_ = 0 ∨ e.type_ = 1) :
    GetFriendsAndIgnore selectFriends charID friends ignorees
      = (friends ++ (entries.filter (fun e => decide (e.type_ = 1))).map
            (fun e => (c_str e.name).bytes),
         ignorees ++ (entries.filter (fun e => decide (e.type_ = 0))).map
            (fun e => (c_str e.name).bytes)) ∧
    (entries.filter (fun e => decide (e.type_ = 1))).length
      + (entries.filter (fun e => decide (e.type_ = 0))).length = entries.length := by
  constructor
  · rw [(GetFriendsAndIgnore_partitions_by_zero selectFriends charID friends ignorees _ hq).1]
    simp only [List.filter_map, List.map_map]
    congr 2
    · congr 1
      apply List.filter_congr
      intro e he
      simp only [Function.comp, FriendEntry.atoi_type]
      rcases hkind e he with h | h <;> simp [h]
    · congr 1
      apply List.filter_congr
      intro e he
      simp only [Function.comp, FriendEntry.atoi_type]
  · clear hq
    induction entries with
    | nil => rfl
    | cons e es ih =>
      have := ih (fun x hx => hkind x (List.mem_cons_of_mem _ hx))
      rcases hkind e (List.mem_cons_self _ _) with h | h <;>
        simp [List.filter_cons, h] <;> omega

/-- Witness of C13: the rows (1, Alice), (0, Mallory), (1, Eve) and (0, Trent), appended to a
list of friends that has Bob already. -/
theorem GetFriendsAndIgnore_partitions_by_kind_witness :
    GetFriendsAndIgnore
        (fun _ => some [⟨lit "1", lit "Alice"⟩, ⟨lit "0", lit "Mallory"⟩, ⟨lit "1", lit "Eve"⟩,
          ⟨lit "0", lit "Trent"⟩])
        42 [ascii "Bob"] []
      = ([ascii "Bob", ascii "Alice", ascii "Eve"], [ascii "Mallory", ascii "Trent"]) :=
  (GetFriendsAndIgnore_partitions_by_kind _ 42 [ascii "Bob"] []
    [⟨42, 1, ascii "Alice"⟩, ⟨42, 0, ascii "Mallory"⟩, ⟨42, 1, ascii "Eve"⟩,
      ⟨42, 0, ascii "Trent"⟩]
    (by decide) (by decide)).1.trans (by decide)

/-! ### The lengths `SendHeaders` computes -/

theorem headerCountPacket_of_cursor (mb : Int) (n : Nat) :
    headerCountPacket mb n
      = (headerCountPacketCursor mb n).map (WriteCursor.packet .OP_MailHeaderCount) := rfl

theorem headerPacket_of_cursor (mb : Int) (pre : StdString) (i : Nat) (row : HeaderRow) :
    headerPacket mb pre i row
      = (headerPacketCursor mb pre i row).map (WriteCursor.packet .OP_MailHeader) := rfl

theorem headerCountPacketCursor_eq (mb : Int) (n : Nat) :
    headerCountPacketCursor mb n
      = some (written (intString mb ++ [0] ++ intString unknownField2 ++ [0]
          ++ intString unknownField3 ++ [0] ++ intString n ++ [0]) 0) := by
  unfold headerCountPacketCursor headerCountPacketLength VARSTRUCT_ENCODE_INTSTRING
  generalize intString mb = f1
  generalize intString unknownField2 = f2
  generalize intString unknownField3 = f3
  generalize intString (n : Int) = f4
  rw [cursor_create]
  simp only [Option.bind_eq_bind]
  rw [Option.some_bind, sprintf_written _ _ _ (by omega)]
  rw [Option.some_bind, sprintf_written _ _ _ (by omega)]
  rw [Option.some_bind, sprintf_written _ _ _ (by omega)]
  rw [Option.some_bind, sprintf_written _ _ _ (by omega)]
  have h0 : f1.length + 1 + (f2.length + 1) + (f3.length + 1) + (f4.length + 1)
      - (f1.length + 1) - (f2.length + 1) - (f3.length + 1) - (f4.length + 1) = 0 := by omega
  rw [h0]
  simp

theorem headerPacketCursor_eq (mb : Int) (pre : StdString) (i : Nat) (row : HeaderRow) :
    headerPacketCursor mb pre i row
      = some (written (intString mb ++ [0] ++ intString unknownField2 ++ [0] ++ intString i ++ [0]
          ++ row.msgid.bytes ++ [0] ++ row.timestamp.bytes ++ [0] ++ row.status.bytes ++ [0]
          ++ (c_str pre).bytes ++ row.from_.bytes ++ [0] ++ row.subject.bytes ++ [0])
          (pre.length - (c_str pre).bytes.length)) := by
  have hp := c_str_length_le pre
  unfold headerPacketCursor headerPacketLength strlen VARSTRUCT_ENCODE_INTSTRING
    VARSTRUCT_ENCODE_STRING
  generalize intString mb = f1
  generalize intString unknownField2 = f2
  generalize intString (i : Int) = f3
  generalize row.msgid.bytes = f4
  generalize row.timestamp.bytes = f5
  generalize row.status.bytes = f6
  generalize row.from_.bytes = f7
  generalize row.subject.bytes = f8
  generalize (c_str pre).bytes = p at hp
  generalize pre.length = k at hp
  rw [cursor_create]
  simp only [Option.bind_eq_bind]
  rw [Option.some_bind, sprintf_written _ _ _ (by omega)]
  rw [Option.some_bind, sprintf_written _ _ _ (by omega)]
  rw [Option.some_bind, sprintf_written _ _ _ (by omega)]
  rw [Option.some_bind, sprintf_written _ _ _ (by omega)]
  rw [Option.some_bind, sprintf_written _ _ _ (by omega)]
  rw [Option.some_bind, sprintf_written _ _ _ (by omega)]
  rw [Option.some_bind, sprintf_written _ _ _ (by omega)]
  rw [Option.some_bind, stepBack_written]
  rw [Option.some_bind, sprintf_written _ _ _ (by omega)]
  rw [Option.some_bind, sprintf_written _ _ _ (by omega)]
  have h0 : f1.length + 1 + (f2.length + 1) + (f3.length + 1) + (f4.length + 1) + (f5.length + 1)
      + (f6.length + 1) + (k + f7.length + 1) + (f8.length + 1)
      - (f1.length + 1) - (f2.length + 1) - (f3.length + 1) - (f4.length + 1) - (f5.length + 1)
      - (f6.length + 1) - (p.length + 1) + 1 - (f7.length + 1) - (f8.length + 1)
      = k - p.length := by omega
  rw [h0]
  simp

theorem WireEncoder.encode_length (fs : List (List Byte)) :
    (WireEncoder.encode fs).length = (fs.map (fun f => f.length + 1)).sum := by
  induction fs with
  | nil => rfl
  | cons f fs ih =>
    simp only [WireEncoder.encode, List.length_append, List.length_cons, ih, List.map_cons,
      List.sum_cons]
    omega

/-- C14 (counterexample): with the mail prefix of the three bytes 'A', NUL, 'B', mailbox 3 and
the letter of `bobDb`, `SendHeaders` computes 34 bytes for the header packet, of which 3 for the
prefix, but the writes end at byte 32: of the prefix only "A" is written, and the last two bytes
of the packet are never written. -/
theorem SendHeaders_counts_the_prefix_behind_its_NUL :
    headerPacketLength 3 (ascii "A\x00B") 0 bobsMail.toHeaderRow = 34 ∧
    (headerPacketCursor 3 (ascii "A\x00B") 0 bobsMail.toHeaderRow).map
        (fun c => (c.packetBuffer, c.pBuffer.length)) = some (32, 34) ∧
    headerPacket 3 (ascii "A\x00B") 0 bobsMail.toHeaderRow
      = some ⟨.OP_MailHeader,
          ascii "3\x0025015275\x000\x007\x001000\x001\x00AAlice\x00Hi\x00" ++ [0, 0]⟩ := by
  decide

/-- C14 (amended): for every mailbox number, every mail prefix without a NUL byte and every mail
row, the length `SendHeaders` computes for the header-count packet and for a header packet is
the number of bytes its writes put there, the sum over the fields of the length of the text and
one NUL, the prefix and the sender being one field: when the last write is done the buffer holds
exactly the encoded fields and the pointer `packetBuffer` stands at the computed length, which is
the end of the buffer. -/
theorem SendHeaders_computed_lengths_are_exact (mb : Int) (pre : StdString) (n i : Nat)
    (row : HeaderRow) (hpre : ∀ b ∈ pre, b ≠ 0) :
    headerCountPacketCursor mb n
      = some ⟨WireEncoder.encode [intString mb, ascii "25015275", ascii "1", intString n],
          headerCountPacketLength mb n⟩ ∧
    headerCountPacketLength mb n
      = (WireEncoder.encode [intString mb, ascii "25015275", ascii "1", intString n]).length ∧
    headerCountPacketLength mb n
      = ([intString mb, ascii "25015275", ascii "1", intString n].map
          (fun f => f.length + 1)).sum ∧
    headerPacketCursor mb pre i row
      = some ⟨WireEncoder.encode [intString mb, ascii "25015275", intString i, row.msgid.bytes,
          row.timestamp.bytes, row.status.bytes, pre ++ row.from_.bytes, row.subject.bytes],
          headerPacketLength mb pre i row⟩ ∧
    headerPacketLength mb pre i row
      = (WireEncoder.encode [intString mb, ascii "25015275", intString i, row.msgid.bytes,
          row.timestamp.bytes, row.status.bytes, pre ++ row.from_.bytes,
          row.subject.bytes]).length ∧
    headerPacketLength mb pre i row
      = ([intString mb, ascii "25015275", intString i, row.msgid.bytes,
          row.timestamp.bytes, row.status.bytes, pre ++ row.from_.bytes,
          row.subject.bytes].map (fun f => f.length + 1)).sum := by
  have hu : intString unknownField2 = ascii "25015275" := by decide
  have hu3 : intString unknownField3 = ascii "1" := by decide
  have hc : (c_str pre).bytes = pre := c_str_bytes_of_nulFree pre hpre
  have hL4 : headerCountPacketLength mb n
      = ([intString mb, ascii "25015275", ascii "1", intString n].map
          (fun f => f.length + 1)).sum := by
    simp only [headerCountPacketLength, hu, hu3, List.map_cons, List.map_nil, List.sum_cons,
      List.sum_nil]
    omega
  have hL8 : headerPacketLength mb pre i row
      = ([intString mb, ascii "25015275", intString i, row.msgid.bytes,
          row.timestamp.bytes, row.status.bytes, pre ++ row.from_.bytes,
          row.subject.bytes].map (fun f => f.length + 1)).sum := by
    simp only [headerPacketLength, strlen, hu, List.map_cons, List.map_nil, List.sum_cons,
      List.sum_nil, List.length_append]
    omega
  refine ⟨?_, ?_, hL4, ?_, ?_, hL8⟩
  · rw [headerCountPacketCursor_eq, hL4, ← WireEncoder.encode_length, hu, hu3]
    simp [written, WireEncoder.encode]
  · rw [hL4, WireEncoder.encode_length]
  · rw [headerPacketCursor_eq, hL8, ← WireEncoder.encode_length, hu, hc]
    simp [written, WireEncoder.encode]
  · rw [hL8, WireEncoder.encode_length]

/-- Witness of C14 (amended): mailbox 3, the prefix "SOE.EQ.srv." and the letter of `bobDb`; the
header packet has 42 bytes and the pointer ends at 42. -/
theorem SendHeaders_computed_lengths_are_exact_witness :
    headerPacketLength 3 (ascii "SOE.EQ.srv.") 0 bobsMail.toHeaderRow = 42 ∧
    headerPacketCursor 3 (ascii "SOE.EQ.srv.") 0 bobsMail.toHeaderRow
      = some ⟨WireEncoder.encode [intString 3, ascii "25015275", intString (0 : Nat),
          bobsMail.toHeaderRow.msgid.bytes, bobsMail.toHeaderRow.timestamp.bytes,
          bobsMail.toHeaderRow.status.bytes,
          ascii "SOE.EQ.srv." ++ bobsMail.toHeaderRow.from_.bytes,
          bobsMail.toHeaderRow.subject.bytes],
          headerPacketLength 3 (ascii "SOE.EQ.srv.") 0 bobsMail.toHeaderRow⟩ :=
  ⟨by decide,
    (SendHeaders_computed_lengths_are_exact 3 (ascii "SOE.EQ.srv.") 1 0 bobsMail.toHeaderRow
      (nulFree_of_all _ (by decide))).2.2.2.1⟩

/-! ### The length `SendBody` allocates -/

/-- C15 (code defect): for the row of message 7 (body "hello", to "Bob") `SendBody` allocates
12 + 1 + 5 + 3 = 21 bytes whatever the mailbox number is. With the mailbox number 3 its writes
take 21 bytes; with -1 and with 10 they take 22, with 123 they take 23, and the writes run past
the end of the packet. -/
theorem SendBody_allocates_for_a_one_digit_mailbox :
    12 + strlen (lit "7") + strlen (lit "hello") + strlen (lit "Bob") = 21 ∧
    (bodyPacket 3 ⟨lit "7", lit "hello", lit "Bob"⟩).map (fun p => p.pBuffer.length) = some 21 ∧
    (intString (-1) ++ [0] ++ ascii "7" ++ [0] ++ ascii "hello" ++ [0] ++ ascii "1" ++ [0]
      ++ [0x00, 0x0A] ++ ascii "TO:" ++ ascii "Bob" ++ [0x0A]).length = 22 ∧
    bodyPacket (-1) ⟨lit "7", lit "hello", lit "Bob"⟩ = none ∧
    bodyPacket 10 ⟨lit "7", lit "hello", lit "Bob"⟩ = none ∧
    (intString 123 ++ [0] ++ ascii "7" ++ [0] ++ ascii "hello" ++ [0] ++ ascii "1" ++ [0]
      ++ [0x00, 0x0A] ++ ascii "TO:" ++ ascii "Bob" ++ [0x0A]).length = 23 ∧
    bodyPacket 123 ⟨lit "7", lit "hello", lit "Bob"⟩ = none := by
  decide

/-! ### `DatabaseDumpService::Dump` -/

/-- The file-name descriptor of `Dump` is "-player", "-system", "-content" and "-login" for the
chosen groups, in that order. -/
theorem Dump_dump_descriptor (schema : DatabaseSchema) (service : DatabaseDumpService)
    (h : service.dump_all_tables = false) :
    (Dump schema service).2
      = (if service.dump_player_tables = true then ascii "-player" else [])
        ++ (if service.dump_system_tables = true then ascii "-system" else [])
        ++ (if service.dump_content_tables = true then ascii "-content" else [])
        ++ (if service.dump_login_server_tables = true then ascii "-login" else []) := by
  obtain ⟨a, p, s, c, l⟩ := service
  simp only at h
  subst h
  cases p <;> cases s <;> cases c <;> cases l <;> simp [Dump]

/-- The table list of `Dump` is the lists of the chosen groups one behind the other, with
nothing put between two of them. -/
theorem Dump_tables_to_dump (schema : DatabaseSchema) (service : DatabaseDumpService)
    (h : service.dump_all_tables = false) :
    (Dump schema service).1
      = (if service.dump_player_tables = true then GetPlayerTablesList schema else [])
        ++ (if service.dump_system_tables = true then GetSystemTablesList schema else [])
        ++ (if service.dump_content_tables = true then GetContentTablesList schema else [])
        ++ (if service.dump_login_server_tables = true then GetLoginTableList schema else []) := by
  obtain ⟨a, p, s, c, l⟩ := service
  simp only at h
  subst h
  cases p <;> cases s <;> cases c <;> cases l <;> simp [Dump]

theorem appendTables_eq (acc : StdString) (ts : List StdString) :
    appendTables acc ts = acc ++ appendTables [] ts := by
  induction ts generalizing acc with
  | nil => simp [appendTables]
  | cons t ts ih =>
    have h1 : appendTables acc (t :: ts) = appendTables (acc ++ (t ++ ascii " ")) ts := rfl
    have h2 : appendTables [] (t :: ts) = appendTables ([] ++ (t ++ ascii " ")) ts := rfl
    rw [h1, h2, ih (acc ++ (t ++ ascii " ")), ih ([] ++ (t ++ ascii " "))]
    simp

theorem appendTables_append (acc : StdString) (ts us : List StdString) :
    appendTables (appendTables acc ts) us = appendTables acc (ts ++ us) := by
  simp [appendTables, List.foldl_append]

theorem ascii_space : ascii " " = [0x20] := by decide

theorem appendTables_spaced (ts : List StdString) (h : ts ≠ []) :
    appendTables [] ts = spaced ts ++ [0x20] := by
  induction ts with
  | nil => exact absurd rfl h
  | cons t ts ih =>
    have h1 : appendTables [] (t :: ts) = appendTables ([] ++ (t ++ ascii " ")) ts := rfl
    rw [h1, appendTables_eq, ascii_space]
    cases ts with
    | nil => simp [appendTables, spaced]
    | cons u us =>
      rw [ih (by simp)]
      simp [spaced]

theorem spaced_head (ts : List StdString) (h : ts ≠ []) (hn : ∀ t ∈ ts, IsTableName t) :
    ∃ b rest, spaced ts = b :: rest ∧ isspace b = false := by
  cases ts with
  | nil => exact absurd rfl h
  | cons t ts =>
    obtain ⟨hne, hsp⟩ := hn t (by simp)
    cases t with
    | nil => exact absurd rfl hne
    | cons b bs =>
      cases ts with
      | nil => exact ⟨b, bs, rfl, hsp b (by simp)⟩
      | cons u us => exact ⟨b, bs ++ 0x20 :: spaced (u :: us), rfl, hsp b (by simp)⟩

theorem spaced_last (ts : List StdString) (h : ts ≠ []) (hn : ∀ t ∈ ts, IsTableName t) :
    ∃ front b, spaced ts = front ++ [b] ∧ isspace b = false := by
  induction ts with
  | nil => exact absurd rfl h
  | cons t ts ih =>
    cases ts with
    | nil =>
      obtain ⟨hne, hsp⟩ := hn t (by simp)
      obtain ⟨front, b, hfb⟩ : ∃ front b, t = front ++ [b] :=
        ⟨t.dropLast, t.getLast hne, (List.dropLast_append_getLast hne).symm⟩
      refine ⟨front, b, ?_, hsp b (by rw [hfb]; simp)⟩
      simpa [spaced] using hfb
    | cons u us =>
      obtain ⟨front, b, hfb, hb⟩ := ih (by simp) (fun x hx => hn x (by simp [hx]))
      refine ⟨t ++ 0x20 :: front, b, ?_, hb⟩
      simp [spaced, hfb]

theorem trim_append_space (x : StdString) (b c : Byte) (rest front : StdString)
    (h1 : x = b :: rest) (hb : isspace b = false) (h2 : x = front ++ [c])
    (hc : isspace c = false) :
    trim (x ++ [0x20]) = x := by
  unfold trim
  have hd : (x ++ [0x20]).dropWhile isspace = x ++ [0x20] := by
    rw [h1]
    simp [List.dropWhile_cons, hb]
  rw [hd]
  have hr : (x ++ [0x20]).reverse = 0x20 :: c :: front.reverse := by
    rw [h2]
    simp
  have hs : isspace (0x20 : Byte) = true := by decide
  rw [hr, List.dropWhile_cons, hs]
  simp only [if_true]
  rw [List.dropWhile_cons, hc]
  simp [h2]

theorem trim_appendTables (ts : List StdString) (hn : ∀ t ∈ ts, IsTableName t) :
    trim (appendTables [] ts) = spaced ts := by
  by_cases h : ts = []
  · subst h
    decide
  · obtain ⟨b, rest, h1, hb⟩ := spaced_head ts h hn
    obtain ⟨front, c, h2, hc⟩ := spaced_last ts h hn
    rw [appendTables_spaced ts h]
    exact trim_append_space _ b c rest front h1 hb h2 hc

theorem splitOnSpaces_name (cur t rest : StdString) (ht : ∀ b ∈ t, isspace b = false) :
    splitOnSpaces cur (t ++ rest) = splitOnSpaces (cur ++ t) rest := by
  induction t generalizing cur with
  | nil => simp
  | cons b bs ih =>
    have hb : b ≠ 0x20 := by
      intro e
      have := ht b (by simp)
      rw [e] at this
      exact absurd this (by decide)
    simp only [List.cons_append, splitOnSpaces, if_neg hb]
    have hi := ih (cur ++ [b]) (fun x hx => ht x (by simp [hx]))
    simp only [List.append_assoc, List.singleton_append] at hi
    exact hi

theorem splitOnSpaces_spaced (ts : List StdString) (hn : ∀ t ∈ ts, IsTableName t) :
    splitOnSpaces [] (spaced ts) = ts := by
  induction ts with
  | nil => simp [spaced, splitOnSpaces]
  | cons t ts ih =>
    obtain ⟨hne, hsp⟩ := hn t (by simp)
    cases ts with
    | nil =>
      have := splitOnSpaces_name [] t [] hsp
      simp only [List.append_nil, List.nil_append] at this
      simp only [spaced, this, splitOnSpaces, if_neg hne]
    | cons u us =>
      have := splitOnSpaces_name [] t (0x20 :: spaced (u :: us)) hsp
      simp only [List.nil_append] at this
      simp only [spaced, this, splitOnSpaces, if_true, if_neg hne]
      rw [ih (fun x hx => hn x (by simp [hx]))]

/-- The table list of one group, split on spaces, is the table names of the group. -/
theorem splitOnSpaces_tablesList (ts : List StdString) (hn : ∀ t ∈ ts, IsTableName t) :
    splitOnSpaces [] (trim (appendTables [] ts)) = ts := by
  rw [trim_appendTables ts hn, splitOnSpaces_spaced ts hn]


/-- With one group chosen, the table list of `Dump`, split on spaces, is the table names of that
group, when every name of the schema is a table name. -/
theorem Dump_of_one_group (schema : DatabaseSchema)
    (hp : ∀ t ∈ schema.GetPlayerTables, IsTableName t)
    (hs : ∀ t ∈ schema.GetServerTables ++ schema.GetStateTables ++ schema.GetVersionTables,
      IsTableName t)
    (hc : ∀ t ∈ schema.GetContentTables, IsTableName t)
    (hl : ∀ t ∈ schema.GetLoginTables, IsTableName t) :
    splitOnSpaces [] (Dump schema ⟨false, true, false, false, false⟩).1
      = schema.GetPlayerTables ∧
    splitOnSpaces [] (Dump schema ⟨false, false, true, false, false⟩).1
      = schema.GetServerTables ++ schema.GetStateTables ++ schema.GetVersionTables ∧
    splitOnSpaces [] (Dump schema ⟨false, false, false, true, false⟩).1
      = schema.GetContentTables ∧
    splitOnSpaces [] (Dump schema ⟨false, false, false, false, true⟩).1
      = schema.GetLoginTables := by
  refine ⟨?_, ?_, ?_, ?_⟩
  · simpa [Dump, GetPlayerTablesList] using splitOnSpaces_tablesList _ hp
  · have h := splitOnSpaces_tablesList _ hs
    rw [← appendTables_append, ← appendTables_append] at h
    simpa [Dump, GetSystemTablesList] using h
  · simpa [Dump, GetContentTablesList] using splitOnSpaces_tablesList _ hc
  · simpa [Dump, GetLoginTableList] using splitOnSpaces_tablesList _ hl

set_option maxRecDepth 100000 in
/-- The tables of `exampleSchema` are table names, and each of its groups, chosen alone, gives
its own names. -/
theorem Dump_of_one_group_example :
    splitOnSpaces [] (Dump exampleSchema ⟨false, true, false, false, false⟩).1
      = exampleSchema.GetPlayerTables ∧
    splitOnSpaces [] (Dump exampleSchema ⟨false, false, true, false, false⟩).1
      = exampleSchema.GetServerTables ++ exampleSchema.GetStateTables
        ++ exampleSchema.GetVersionTables ∧
    splitOnSpaces [] (Dump exampleSchema ⟨false, false, false, true, false⟩).1
      = exampleSchema.GetContentTables ∧
    splitOnSpaces [] (Dump exampleSchema ⟨false, false, false, false, true⟩).1
      = exampleSchema.GetLoginTables :=
  Dump_of_one_group exampleSchema (by decide) (by decide) (by decide) (by decide)

/-- C16 (code defect): with the player and the system groups chosen on `exampleSchema`, the
descriptor is "-player-system", but the table list is the player list and the system list put
together with nothing between them: split on spaces it has the token
"character_databanned_ips", and it is not the list of the six table names. -/
theorem Dump_fuses_the_last_and_first_table_of_two_groups :
    (Dump exampleSchema ⟨false, true, true, false, false⟩).2 = ascii "-player-system" ∧
    (Dump exampleSchema ⟨false, true, true, false, false⟩).1
      = ascii "account character_databanned_ips bugs adventure_members db_version" ∧
    splitOnSpaces [] (Dump exampleSchema ⟨false, true, true, false, false⟩).1
      = [ascii "account", ascii "character_databanned_ips", ascii "bugs",
          ascii "adventure_members", ascii "db_version"] ∧
    splitOnSpaces [] (Dump exampleSchema ⟨false, true, true, false, false⟩).1
      ≠ exampleSchema.GetPlayerTables ++ (exampleSchema.GetServerTables
          ++ exampleSchema.GetStateTables ++ exampleSchema.GetVersionTables) := by
  decide

end UCS
